import Mathlib

set_option maxHeartbeats 1000000

namespace EditPathExtractor

/-- Canonical label string of an attribute map: iterate the stored pairs in
order and emit "key=value;" for each one (edit_path_extractor.cpp, the
ostringstream loops). -/
def canon (m : List (String × String)) : String :=
  m.foldl (fun acc kv => acc ++ kv.1 ++ "=" ++ kv.2 ++ ";") ""

/-- The gedlib dummy-node sentinel: std::numeric_limits of size_t, i.e. the
largest 64-bit value. -/
def DUMMY : Nat := 2 ^ 64 - 1

/-- An attributed exchange graph as consumed by extractEditPath: node count,
node labels indexed by position, an adjacency matrix of 0/1 entries, and an
edge-label map keyed by index pairs. -/
structure ExGraph where
  num_nodes : Nat
  node_labels : List (List (String × String))
  adj_matrix : List (List Nat)
  edge_labels : List ((Nat × Nat) × List (String × String))
deriving Repr

/-- Adjacency test `adj_matrix[i][j] == 1`. -/
def adjAt (g : ExGraph) (i j : Nat) : Bool :=
  (g.adj_matrix.getD i []).getD j 0 == 1

/-- Canonical node label as the code computes it: the "key=value;" string when
`i < node_labels.size()`, the empty string otherwise. -/
def nodeCanon (g : ExGraph) (i : Nat) : String :=
  if i < g.node_labels.length then canon (g.node_labels.getD i []) else ""

/-- Canonical edge label as the code computes it: lookup of the ordered pair in
`edge_labels`, empty string when absent. -/
def edgeCanonOf (g : ExGraph) (i j : Nat) : String :=
  match List.lookup (i, j) g.edge_labels with
  | some m => canon m
  | none => ""

/-- The only four observations extractEditPath makes of an input graph: node
count, canonical node labels, adjacency, canonical edge labels. The code
recomputes the two label strings with the same ostringstream loop at every
use site; the view centralises that computation. -/
structure GraphView where
  n : Nat
  nlab : Nat → String
  adj : Nat → Nat → Bool
  edgeLab : Nat → Nat → String

def toView (g : ExGraph) : GraphView :=
  { n := g.num_nodes, nlab := nodeCanon g, adj := adjAt g, edgeLab := edgeCanonOf g }

/-- The mutable GraphState of the extractor.  The C++ vectors are modelled as
total functions plus explicit lengths: `activeLen` is `active.size()` (grown in
lockstep with `numNodes` by the push_back branch), and matrix entries outside
the `numNodes` square are `false` / `""`, matching the vectors' padding. -/
structure GraphState where
  activeLen : Nat
  active : Nat → Bool
  labels : Nat → String
  numNodes : Nat
  edgeExists : Nat → Nat → Bool
  edgeLabels : Nat → Nat → String

/-- One edit operation; constructors mirror the "op" tags emitted by the code,
with the fields each JSON record carries.  `delEdge`'s Bool is whether the
"note": "endpoint deleted" field is present. -/
inductive EditOp where
  | matchNode (g1 g2 : Nat) (label : String)
  | subNode (g1 g2 : Nat) (oldLab newLab : String)
  | delNode (g1 : Nat) (oldLab : String)
  | insNode (g2 : Nat) (newLab : String)
  | matchEdge (e1 e2 : Nat × Nat) (label : String)
  | subEdge (e1 e2 : Nat × Nat) (oldLab newLab : String)
  | delEdge (e1 : Nat × Nat) (endpointDeletedNote : Bool)
  | insEdge (e2 : Nat × Nat)
deriving DecidableEq, Repr

/-- Insert-or-overwrite into the assignment map, the effect of
`mapping[assign.first] = assign.second` on a std::map. -/
def insertAssoc : List (Nat × Nat) → Nat → Nat → List (Nat × Nat)
  | [], k, v => [(k, v)]
  | (k', v') :: t, k, v =>
      if k' = k then (k, v) :: t else (k', v') :: insertAssoc t k v

/-- Build the `mapping` map from the node-map relation: only pairs with both
indices in bounds are stored (edit_path_extractor.cpp lines 34-39). -/
def buildMapping (n1 n2 : Nat) (assignments : List (Nat × Nat)) : List (Nat × Nat) :=
  assignments.foldl
    (fun m a => if a.1 < n1 ∧ a.2 < n2 then insertAssoc m a.1 a.2 else m) []

/-- The node-phase test `it != mapping.end() && it->second != DUMMY`:
the stored target when present and not the dummy sentinel. -/
def resolved (m : List (Nat × Nat)) (i : Nat) : Option Nat :=
  match List.lookup i m with
  | some t => if t = DUMMY then none else some t
  | none => none

/-- The edge-phase resolution `mapping.count(i) ? mapping.at(i) : DUMMY`. -/
def mappedOrDummy (m : List (Nat × Nat)) (i : Nat) : Nat :=
  match List.lookup i m with
  | some t => t
  | none => DUMMY

/-- Membership in the `mappedG2` set (lines 119-124): some stored pair targets
`j` with a non-dummy value. -/
def isTargetB (m : List (Nat × Nat)) (j : Nat) : Bool :=
  m.any (fun p => p.2 != DUMMY && p.2 == j)

/-- The initial edit state copied from Graph1 (lines 43-72): all nodes active,
canonical labels, edges for adjacent pairs i < j with their canonical labels. -/
def initState (v : GraphView) : GraphState :=
  { activeLen := v.n
    active := fun i => decide (i < v.n)
    labels := fun i => if i < v.n then v.nlab i else ""
    numNodes := v.n
    edgeExists := fun i j => decide (i < j) && decide (j < v.n) && v.adj i j
    edgeLabels := fun i j =>
      if i < j ∧ j < v.n ∧ v.adj i j = true then v.edgeLab i j else "" }

/-- Run a per-index step function over an index list, threading the state and
concatenating the emitted operations in order. -/
def runOps {σ ι : Type} (f : σ → ι → σ × List EditOp) : σ → List ι → σ × List EditOp
  | s, [] => (s, [])
  | s, i :: rest =>
      let r1 := f s i
      let r2 := runOps f r1.1 rest
      (r2.1, r1.2 ++ r2.2)

/-- Node reconciliation step for Graph1 node `i` (lines 74-117).  The state is
paired with the running `nodeMatches` counter.  The deletion cascade clears
entry (min i j, max i j) for every j < numNodes, j ≠ i; in closed form an
entry (a,b) is cleared exactly when a = i, a < b, b < numNodes or b = i,
a < b, a < numNodes. -/
def nodeStep (v2 : GraphView) (m : List (Nat × Nat)) (s : GraphState × Nat)
    (i : Nat) : (GraphState × Nat) × List EditOp :=
  let st := s.1
  if st.activeLen ≤ i ∨ st.active i = false then (s, [])
  else
    match resolved m i with
    | some target =>
        let targetLabel := v2.nlab target
        if st.labels i ≠ targetLabel then
          (({ st with labels := fun j => if j = i then targetLabel else st.labels j }, s.2),
           [EditOp.subNode i target (st.labels i) targetLabel])
        else
          ((st, s.2 + 1), [EditOp.matchNode i target (st.labels i)])
    | none =>
        (({ st with
              active := fun j => if j = i then false else st.active j,
              edgeExists := fun a b =>
                if (a = i ∧ a < b ∧ b < st.numNodes) ∨ (b = i ∧ a < b ∧ a < st.numNodes)
                then false else st.edgeExists a b }, s.2),
         [EditOp.delNode i (st.labels i)])

/-- Insert step for Graph2 node `j` (lines 125-164): unmatched targets either
reuse an inactive slot `j < numNodes`, or append a fresh slot when
`j >= numNodes`; an unmatched `j` whose slot is still active is skipped. -/
def insertStep (v2 : GraphView) (m : List (Nat × Nat)) (st : GraphState)
    (j : Nat) : GraphState × List EditOp :=
  if isTargetB m j then (st, [])
  else if j < st.numNodes ∧ st.active j = false then
    let lab := v2.nlab j
    ({ st with active := fun a => if a = j then true else st.active a,
               labels := fun a => if a = j then lab else st.labels a },
     [EditOp.insNode j lab])
  else if st.numNodes ≤ j then
    let lab := v2.nlab j
    ({ st with activeLen := st.activeLen + 1,
               active := fun a => if a = st.activeLen then true else st.active a,
               labels := fun a => if a = st.activeLen then lab else st.labels a,
               numNodes := st.numNodes + 1 },
     [EditOp.insNode j lab])
  else (st, [])

/-- Graph1-edge reconciliation step for the pair (i,k) (lines 166-228). -/
def g1EdgeStep (v1 v2 : GraphView) (m : List (Nat × Nat)) (s : GraphState × Nat)
    (p : Nat × Nat) : (GraphState × Nat) × List EditOp :=
  let st := s.1
  let i := p.1
  let k := p.2
  if v1.adj i k = true then
    if i < st.activeLen ∧ k < st.activeLen ∧ st.active i = true ∧ st.active k = true then
      let mi := mappedOrDummy m i
      let mk := mappedOrDummy m k
      if mi ≠ DUMMY ∧ mk ≠ DUMMY ∧ mi < v2.n ∧ mk < v2.n then
        if v2.adj mi mk = true then
          let currentEdgeLabel :=
            if i < st.numNodes ∧ k < st.numNodes ∧ st.edgeExists i k = true
            then st.edgeLabels i k else ""
          let targetEdgeLabel := v2.edgeLab mi mk
          if currentEdgeLabel ≠ targetEdgeLabel then
            (({ st with edgeLabels := fun a b =>
                  if a = i ∧ b = k then targetEdgeLabel else st.edgeLabels a b }, s.2),
             [EditOp.subEdge (i, k) (mi, mk) currentEdgeLabel targetEdgeLabel])
          else
            ((st, s.2 + 1), [EditOp.matchEdge (i, k) (mi, mk) currentEdgeLabel])
        else
          if i < st.numNodes ∧ k < st.numNodes ∧ st.edgeExists i k = true then
            (({ st with edgeExists := fun a b =>
                  if a = i ∧ b = k then false else st.edgeExists a b }, s.2),
             [EditOp.delEdge (i, k) false])
          else (s, [])
      else
        if i < st.numNodes ∧ k < st.numNodes ∧ st.edgeExists i k = true then
          (({ st with edgeExists := fun a b =>
                if a = i ∧ b = k then false else st.edgeExists a b }, s.2),
           [EditOp.delEdge (i, k) true])
        else (s, [])
    else (s, [])
  else (s, [])

/-- Graph2-only edge step for the pair (j,k) (lines 230-258). -/
def g2EdgeStep (v2 : GraphView) (st : GraphState) (p : Nat × Nat) :
    GraphState × List EditOp :=
  let j := p.1
  let k := p.2
  if v2.adj j k = true then
    if j < st.activeLen ∧ k < st.activeLen ∧ st.active j = true ∧ st.active k = true then
      if ¬ (j < st.numNodes ∧ k < st.numNodes ∧ st.edgeExists j k = true) then
        ({ st with
             edgeExists := fun a b => if a = j ∧ b = k then true else st.edgeExists a b,
             edgeLabels := fun a b => if a = j ∧ b = k then v2.edgeLab j k else st.edgeLabels a b },
         [EditOp.insEdge (j, k)])
      else (st, [])
    else (st, [])
  else (st, [])

/-- The ordered pairs (i,k), i < k < n, in the order of the nested loops. -/
def allPairs (n : Nat) : List (Nat × Nat) :=
  (List.range n).flatMap (fun i => ((List.range n).filter (fun k => i < k)).map (fun k => (i, k)))

/-- Everything extractEditPath produces: the ordered operation list, the two
counters, and (for stating invariants) the final internal state, which the C++
discards. -/
structure ExtractResult where
  ops : List EditOp
  nodeMatches : Nat
  edgeMatches : Nat
  finalState : GraphState

/-- The four phases of extractEditPath run on graph views with an
already-built mapping. -/
def extractWithMapping (v1 v2 : GraphView) (m : List (Nat × Nat))
    (nm0 em0 : Nat) : ExtractResult :=
  let r1 := runOps (nodeStep v2 m) (initState v1, nm0) (List.range v1.n)
  let r2 := runOps (insertStep v2 m) r1.1.1 (List.range v2.n)
  let r3 := runOps (g1EdgeStep v1 v2 m) (r2.1, em0) (allPairs v1.n)
  let r4 := runOps (g2EdgeStep v2) r3.1.1 (allPairs v2.n)
  { ops := r1.2 ++ r2.2 ++ r3.2 ++ r4.2
    nodeMatches := r1.1.2
    edgeMatches := r3.1.2
    finalState := r4.1 }

def extractViews (v1 v2 : GraphView) (assignments : List (Nat × Nat))
    (nm0 em0 : Nat) : ExtractResult :=
  extractWithMapping v1 v2 (buildMapping v1.n v2.n assignments) nm0 em0

/-- extractEditPath: build the bounded mapping from the node-map relation,
initialise the state from Graph1, and run node reconciliation, inserts,
Graph1-edge reconciliation and Graph2-only-edge insertion in that order.
`nm0`/`em0` are the incoming values of the two counters passed by reference. -/
def extractEditPath (g1 g2 : ExGraph) (assignments : List (Nat × Nat))
    (nm0 em0 : Nat) : ExtractResult :=
  extractViews (toView g1) (toView g2) assignments nm0 em0

/-- Does an operation resolve Graph1 node `i` (match, substitute or delete)? -/
def isResolveOpFor (i : Nat) : EditOp → Bool
  | .matchNode a _ _ => a == i
  | .subNode a _ _ _ => a == i
  | .delNode a _ => a == i
  | _ => false

/-- Is an operation an insert of Graph2 node `j`? -/
def isInsertOpFor (j : Nat) : EditOp → Bool
  | .insNode a _ => a == j
  | _ => false

/-- Is this a node-level operation? -/
def isNodeOp : EditOp → Bool
  | .matchNode _ _ _ => true
  | .subNode _ _ _ _ => true
  | .delNode _ _ => true
  | .insNode _ _ => true
  | _ => false

/-- Is this a Graph1-edge-driven operation for pair `p`? -/
def isG1EdgeOpFor (p : Nat × Nat) : EditOp → Bool
  | .matchEdge e _ _ => e == p
  | .subEdge e _ _ _ => e == p
  | .delEdge e _ => e == p
  | _ => false

/-- Phase rank of an operation: node ops, then Graph1-edge-driven ops, then
Graph2-only edge inserts. -/
def opRank : EditOp → Nat
  | .matchNode _ _ _ => 0
  | .subNode _ _ _ _ => 0
  | .delNode _ _ => 0
  | .insNode _ _ => 0
  | .matchEdge _ _ _ => 1
  | .subEdge _ _ _ _ => 1
  | .delEdge _ _ => 1
  | .insEdge _ => 2

/-- Does a delete_edge carry the "endpoint deleted" note? -/
def hasEndpointDeletedNote : EditOp → Bool
  | .delEdge _ note => note
  | _ => false

/-- The node-level operation the node phase emits for Graph1 node `i`
(a pure function of the inputs, since the phase reads slot `i` before
any step can modify it). -/
def opFor (v1 v2 : GraphView) (m : List (Nat × Nat)) (i : Nat) : EditOp :=
  match resolved m i with
  | some t =>
      if (initState v1).labels i ≠ v2.nlab t
      then .subNode i t ((initState v1).labels i) (v2.nlab t)
      else .matchNode i t ((initState v1).labels i)
  | none => .delNode i ((initState v1).labels i)

/-- Whether Graph1 node `i` is matched (same canonical label as its target). -/
def isMatchAtB (v1 v2 : GraphView) (m : List (Nat × Nat)) (i : Nat) : Bool :=
  match resolved m i with
  | some t => (initState v1).labels i == v2.nlab t
  | none => false

/-- Number of appended slots after processing Graph2 nodes 0..mm-1 in the
insert phase: unmatched nodes at positions at or past the original slot
count. -/
def ACount (n1 : Nat) (m : List (Nat × Nat)) (mm : Nat) : Nat :=
  ((List.range mm).filter (fun j => !(isTargetB m j) && decide (n1 ≤ j))).length

/-- Whether the insert phase emits an insert for Graph2 node `j`, given the
active function `act0` left by the node phase: `j` unmatched, and either
beyond the original slot range or on an inactive slot. -/
def insCondB (m : List (Nat × Nat)) (n1 : Nat) (act0 : Nat → Bool) (j : Nat) : Bool :=
  !(isTargetB m j) && (decide (n1 ≤ j) || !(act0 j))

/-- The operations the insert phase emits for Graph2 node `j`. -/
def insChunk (v2 : GraphView) (m : List (Nat × Nat)) (n1 : Nat)
    (act0 : Nat → Bool) (j : Nat) : List EditOp :=
  if insCondB m n1 act0 j then [EditOp.insNode j (v2.nlab j)] else []

/-- Pointwise description of the edit state after the node phase has
processed Graph1 nodes 0..mm-1. -/
def NSpec (v1 : GraphView) (m : List (Nat × Nat)) (mm : Nat) (s : GraphState) : Prop :=
  s.activeLen = v1.n ∧ s.numNodes = v1.n ∧
  (∀ j, s.active j = (decide (j < v1.n) && !(decide (j < mm) && (resolved m j).isNone))) ∧
  (∀ j, mm ≤ j → s.labels j = (initState v1).labels j) ∧
  (∀ a b, s.edgeExists a b =
    ((initState v1).edgeExists a b &&
      !((decide (a < mm) && (resolved m a).isNone) ||
        (decide (b < mm) && (resolved m b).isNone)))) ∧
  (∀ a b, s.edgeLabels a b = (initState v1).edgeLabels a b)

/-- Pointwise description of the edit state after the insert phase has
processed Graph2 nodes 0..mm-1, relative to the state left by the node phase
(active function `act0`, edge data `e0`/`el0`, original slot count `n1`). -/
def ISpec (n1 : Nat) (m : List (Nat × Nat)) (act0 : Nat → Bool)
    (e0 : Nat → Nat → Bool) (el0 : Nat → Nat → String)
    (mm : Nat) (s : GraphState) : Prop :=
  s.numNodes = n1 + ACount n1 m mm ∧
  s.activeLen = s.numNodes ∧
  (∀ j, j < n1 → s.active j =
    (if j < mm ∧ isTargetB m j = false then true else act0 j)) ∧
  (∀ j, n1 ≤ j → s.active j = decide (j < n1 + ACount n1 m mm)) ∧
  (∀ a b, s.edgeExists a b = e0 a b) ∧
  (∀ a b, s.edgeLabels a b = el0 a b)

/-- An edge is active only between two active slots. -/
def edgeInvariant (s : GraphState) : Prop :=
  ∀ a b, s.edgeExists a b = true → s.active a = true ∧ s.active b = true

/-- Structural well-formedness the extractor maintains: the active vector and
the edge matrices share the slot count, and active edges sit strictly under
the diagonal inside the slot square. -/
def stateWF (s : GraphState) : Prop :=
  s.activeLen = s.numNodes ∧
  ∀ a b, s.edgeExists a b = true → a < b ∧ b < s.numNodes

/-- Make every implicitly-missing label explicit: append empty attribute maps
for nodes beyond the label table and empty edge-label entries for adjacent
pairs absent from the edge-label map. -/
def padGraph (g : ExGraph) : ExGraph :=
  { g with
      node_labels :=
        g.node_labels ++ List.replicate (g.num_nodes - g.node_labels.length) [],
      edge_labels :=
        g.edge_labels ++
          (((allPairs g.num_nodes).filter
              (fun p => adjAt g p.1 p.2 && (List.lookup p g.edge_labels).isNone)).map
            (fun p => (p, ([] : List (String × String))))) }

/-- The identity correspondence on `n` nodes. -/
def idAssignments (n : Nat) : List (Nat × Nat) :=
  (List.range n).map (fun i => (i, i))

/-- Number of Graph1 edges: adjacent pairs i < k. -/
def numEdges (g : ExGraph) : Nat :=
  ((allPairs g.num_nodes).filter (fun p => adjAt g p.1 p.2)).length

/-- Number of Graph2 nodes that are targets of stored correspondence pairs. -/
def targetCount (m : List (Nat × Nat)) (n2 : Nat) : Nat :=
  ((List.range n2).filter (fun j => isTargetB m j)).length

/-- Concrete graph: two nodes labelled A and B joined by one edge. -/
def gAB : ExGraph :=
  { num_nodes := 2
    node_labels := [[("label", "A")], [("label", "B")]]
    adj_matrix := [[0, 1], [1, 0]]
    edge_labels := [] }

/-- Concrete graph: two nodes labelled A and C joined by one edge. -/
def gAC : ExGraph :=
  { num_nodes := 2
    node_labels := [[("label", "A")], [("label", "C")]]
    adj_matrix := [[0, 1], [1, 0]]
    edge_labels := [] }

/-- Concrete graph: two isolated nodes labelled A and B. -/
def gABiso : ExGraph :=
  { num_nodes := 2
    node_labels := [[("label", "A")], [("label", "B")]]
    adj_matrix := [[0, 0], [0, 0]]
    edge_labels := [] }

/-- Result of the node-reconciliation phase (state with counter, and ops). -/
def phase1 (v1 v2 : GraphView) (m : List (Nat × Nat)) (nm : Nat) :
    (GraphState × Nat) × List EditOp :=
  runOps (nodeStep v2 m) (initState v1, nm) (List.range v1.n)

/-- Result of the insert phase. -/
def phase2 (v1 v2 : GraphView) (m : List (Nat × Nat)) (nm : Nat) :
    GraphState × List EditOp :=
  runOps (insertStep v2 m) (phase1 v1 v2 m nm).1.1 (List.range v2.n)

/-- Result of the Graph1-edge phase (state with counter, and ops). -/
def phase3 (v1 v2 : GraphView) (m : List (Nat × Nat)) (nm em : Nat) :
    (GraphState × Nat) × List EditOp :=
  runOps (g1EdgeStep v1 v2 m) ((phase2 v1 v2 m nm).1, em) (allPairs v1.n)

/-- Result of the Graph2-only edge phase. -/
def phase4 (v1 v2 : GraphView) (m : List (Nat × Nat)) (nm em : Nat) :
    GraphState × List EditOp :=
  runOps (g2EdgeStep v2) (phase3 v1 v2 m nm em).1.1 (allPairs v2.n)

/-- Pointwise description of the edit state during the edge phases on the
identity instance: all original slots active, nothing beyond them, edges and
edge labels exactly as initialised from Graph1. -/
def Jid (v : GraphView) (s : GraphState) : Prop :=
  s.numNodes = v.n ∧ s.activeLen = v.n ∧
  (∀ j, s.active j = decide (j < v.n)) ∧
  (∀ a b, s.edgeExists a b = (initState v).edgeExists a b) ∧
  (∀ a b, s.edgeLabels a b = (initState v).edgeLabels a b)

theorem runOps_nil {σ ι : Type} (f : σ → ι → σ × List EditOp) (s : σ) :
    runOps f s [] = (s, []) := rfl

theorem runOps_cons {σ ι : Type} (f : σ → ι → σ × List EditOp) (s : σ)
    (i : ι) (l : List ι) :
    runOps f s (i :: l) =
      ((runOps f (f s i).1 l).1, (f s i).2 ++ (runOps f (f s i).1 l).2) := rfl

theorem runOps_all {σ ι : Type} (f : σ → ι → σ × List EditOp) (P : EditOp → Prop)
    (h : ∀ s i, ∀ op ∈ (f s i).2, P op) :
    ∀ (l : List ι) (s : σ), ∀ op ∈ (runOps f s l).2, P op := by
  intro l
  induction l with
  | nil => intro s op hop; simp [runOps] at hop
  | cons i t ih =>
      intro s op hop
      rw [runOps_cons] at hop
      rcases List.mem_append.1 hop with h1 | h2
      · exact h s i op h1
      · exact ih (f s i).1 op h2

theorem runOps_pres {σ ι : Type} (f : σ → ι → σ × List EditOp) (inv : σ → Prop) :
    ∀ (l : List ι), (∀ s i, i ∈ l → inv s → inv (f s i).1) →
      ∀ s, inv s → inv (runOps f s l).1 := by
  intro l
  induction l with
  | nil => intro _ s hs; simpa [runOps] using hs
  | cons i t ih =>
      intro hstep s hs
      rw [runOps_cons]
      exact ih (fun s' j hj h' => hstep s' j (List.mem_cons_of_mem _ hj) h')
        (f s i).1 (hstep s i (List.mem_cons_self _ _) hs)

theorem runOps_all_inv {σ ι : Type} (f : σ → ι → σ × List EditOp)
    (inv : σ → Prop) (P : EditOp → Prop) :
    ∀ (l : List ι), (∀ s i, i ∈ l → inv s → inv (f s i).1) →
      (∀ s i, i ∈ l → inv s → ∀ op ∈ (f s i).2, P op) →
      ∀ s, inv s → ∀ op ∈ (runOps f s l).2, P op := by
  intro l
  induction l with
  | nil => intro _ _ s _ op hop; simp [runOps] at hop
  | cons i t ih =>
      intro hpres hops s hs op hop
      rw [runOps_cons] at hop
      rcases List.mem_append.1 hop with h1 | h2
      · exact hops s i (List.mem_cons_self _ _) hs op h1
      · exact ih (fun s' j hj h' => hpres s' j (List.mem_cons_of_mem _ hj) h')
          (fun s' j hj h' => hops s' j (List.mem_cons_of_mem _ hj) h')
          (f s i).1 (hpres s i (List.mem_cons_self _ _) hs) op h2

theorem runOps_countP_zero {σ ι : Type} (f : σ → ι → σ × List EditOp)
    (p : EditOp → Bool) :
    ∀ (l : List ι), (∀ s i, i ∈ l → ((f s i).2.countP p) = 0) →
      ∀ s, ((runOps f s l).2.countP p) = 0 := by
  intro l
  induction l with
  | nil => intro _ s; simp [runOps]
  | cons i t ih =>
      intro h s
      rw [runOps_cons]
      simp only [List.countP_append]
      rw [h s i (List.mem_cons_self _ _),
        ih (fun s' j hj => h s' j (List.mem_cons_of_mem _ hj)) (f s i).1]

theorem runOps_countP_single {σ : Type} (f : σ → Nat × Nat → σ × List EditOp)
    (p : EditOp → Bool) (t : Nat × Nat) (c : Nat) (inv : σ → Prop)
    (hpres : ∀ s i, i ≠ t → inv s → inv (f s i).1)
    (hoff : ∀ s i, i ≠ t → ((f s i).2.countP p) = 0)
    (hhit : ∀ s, inv s → ((f s t).2.countP p) = c) :
    ∀ (l : List (Nat × Nat)) (s : σ), l.count t = 1 → inv s →
      ((runOps f s l).2.countP p) = c := by
  intro l
  induction l with
  | nil => intro s hcount _; simp at hcount
  | cons i t' ih =>
      intro s hcount hinv
      rw [runOps_cons]
      simp only [List.countP_append]
      by_cases hit : i = t
      · subst hit
        have ht' : t'.count i = 0 := by
          have := hcount
          rw [List.count_cons_self] at this
          omega
        rw [hhit s hinv]
        rw [runOps_countP_zero f p t'
          (fun s' j hj => hoff s' j (by
            intro hj'
            subst hj'
            exact absurd (List.count_eq_zero.1 ht') (by simp [hj]))) (f s i).1]
        omega
      · have hcount' : t'.count t = 1 := by
          rw [List.count_cons_of_ne (Ne.symm hit)] at hcount
          exact hcount
        rw [hoff s i hit, ih (f s i).1 hcount' (hpres s i hit hinv)]
        omega

theorem countP_flatMap_chunks (p : EditOp → Bool) (g : Nat → List EditOp) :
    ∀ l : List Nat, ((l.flatMap g).countP p) = (l.map (fun j => (g j).countP p)).sum := by
  intro l
  induction l with
  | nil => simp
  | cons i t ih => simp [List.flatMap_cons, List.countP_append, ih]

theorem countP_flatMap_single (g : Nat → List EditOp) (p : EditOp → Bool) (t : Nat)
    (hoff : ∀ i, i ≠ t → ((g i).countP p) = 0) :
    ∀ l : List Nat, l.count t = 1 → ((l.flatMap g).countP p) = ((g t).countP p) := by
  intro l
  induction l with
  | nil => intro hcount; simp at hcount
  | cons i t' ih =>
      intro hcount
      rw [List.flatMap_cons, List.countP_append]
      by_cases hit : i = t
      · subst hit
        have ht' : t'.count i = 0 := by
          rw [List.count_cons_self] at hcount
          omega
        have hz : ((t'.flatMap g).countP p) = 0 := by
          rw [countP_flatMap_chunks]
          apply List.sum_eq_zero
          intro x hx
          rcases List.mem_map.1 hx with ⟨j, hj, rfl⟩
          exact hoff j (by
            intro hj'
            subst hj'
            exact absurd (List.count_eq_zero.1 ht') (by simp [hj]))
        omega
      · have hcount' : t'.count t = 1 := by
          rw [List.count_cons_of_ne (Ne.symm hit)] at hcount
          exact hcount
        rw [hoff i hit, ih hcount']
        omega

theorem countP_flatMap_boolean (g : Nat → List EditOp) (p : EditOp → Bool)
    (cnd : Nat → Bool) (h : ∀ i, ((g i).countP p) = if cnd i then 1 else 0) :
    ∀ l : List Nat, ((l.flatMap g).countP p) = (l.filter cnd).length := by
  intro l
  induction l with
  | nil => simp
  | cons i t ih =>
      rw [List.flatMap_cons, List.countP_append, h i, ih, List.filter_cons]
      by_cases hc : cnd i = true
      · simp only [hc, if_true, List.length_cons]
        omega
      · simp [hc, Bool.of_not_eq_true hc]

theorem lookup_cons_eq (l : List (Nat × Nat)) (k v j : Nat) :
    List.lookup j ((k, v) :: l) = if j = k then some v else List.lookup j l := by
  by_cases hj : j = k
  · have hb : (j == k) = true := beq_iff_eq.2 hj
    simp [List.lookup, hb, hj]
  · have hb : (j == k) = false := beq_eq_false_iff_ne.2 hj
    simp [List.lookup, hb, hj]

theorem insertAssoc_lookup (k v : Nat) :
    ∀ (l : List (Nat × Nat)) (j : Nat),
      List.lookup j (insertAssoc l k v) = if j = k then some v else List.lookup j l := by
  intro l
  induction l with
  | nil =>
      intro j
      show List.lookup j [(k, v)] = _
      rw [lookup_cons_eq]
  | cons p t ih =>
      intro j
      obtain ⟨k', v'⟩ := p
      show List.lookup j (if k' = k then (k, v) :: t else (k', v') :: insertAssoc t k v) = _
      by_cases hk : k' = k
      · rw [if_pos hk, lookup_cons_eq, lookup_cons_eq]
        by_cases hj : j = k
        · rw [if_pos hj, if_pos hj]
        · rw [if_neg hj, if_neg hj, if_neg (fun h => hj (h.trans hk))]
      · rw [if_neg hk, lookup_cons_eq, ih j, lookup_cons_eq]
        by_cases hj : j = k'
        · have hne : ¬ j = k := fun h => hk (hj.symm.trans h)
          rw [if_pos hj, if_neg hne, if_pos hj]
        · rw [if_neg hj, if_neg hj]

theorem mem_insertAssoc (k v : Nat) :
    ∀ (l : List (Nat × Nat)) (p : Nat × Nat),
      p ∈ insertAssoc l k v → p = (k, v) ∨ p ∈ l := by
  intro l
  induction l with
  | nil => intro p hp; simp [insertAssoc] at hp; exact Or.inl hp
  | cons q t ih =>
      intro p hp
      obtain ⟨k', v'⟩ := q
      by_cases hk : k' = k
      · subst hk
        simp only [insertAssoc, if_pos rfl] at hp
        rcases List.mem_cons.1 hp with h | h
        · exact Or.inl h
        · exact Or.inr (List.mem_cons_of_mem _ h)
      · simp only [insertAssoc, if_neg hk] at hp
        rcases List.mem_cons.1 hp with h | h
        · exact Or.inr (List.mem_cons.2 (Or.inl h))
        · rcases ih p h with h' | h'
          · exact Or.inl h'
          · exact Or.inr (List.mem_cons_of_mem _ h')

theorem lookup_mem :
    ∀ (l : List (Nat × Nat)) (j t : Nat), List.lookup j l = some t → (j, t) ∈ l := by
  intro l
  induction l with
  | nil => intro j t h; simp [List.lookup] at h
  | cons p l' ih =>
      intro j t h
      obtain ⟨k, v⟩ := p
      rw [lookup_cons_eq] at h
      by_cases hj : j = k
      · rw [if_pos hj] at h
        subst hj
        obtain rfl : v = t := by simpa using h
        exact List.mem_cons_self _ _
      · rw [if_neg hj] at h
        exact List.mem_cons_of_mem _ (ih j t h)

theorem buildMapping_mem (n1 n2 : Nat) (A : List (Nat × Nat)) :
    ∀ p ∈ buildMapping n1 n2 A, p.1 < n1 ∧ p.2 < n2 := by
  have aux : ∀ (B : List (Nat × Nat)) (acc : List (Nat × Nat)),
      (∀ p ∈ acc, p.1 < n1 ∧ p.2 < n2) →
      ∀ p ∈ B.foldl
        (fun m a => if a.1 < n1 ∧ a.2 < n2 then insertAssoc m a.1 a.2 else m) acc,
        p.1 < n1 ∧ p.2 < n2 := by
    intro B
    induction B with
    | nil => intro acc hacc p hp; exact hacc p hp
    | cons a B' ih =>
        intro acc hacc p hp
        simp only [List.foldl_cons] at hp
        by_cases ha : a.1 < n1 ∧ a.2 < n2
        · rw [if_pos ha] at hp
          refine ih _ ?_ p hp
          intro q hq
          rcases mem_insertAssoc a.1 a.2 acc q hq with h | h
          · subst h; exact ha
          · exact hacc q h
        · rw [if_neg ha] at hp
          exact ih _ hacc p hp
  exact aux A [] (by intro p hp; simp at hp)

theorem buildMapping_lookup_lt (n1 n2 : Nat) (A : List (Nat × Nat)) (i t : Nat)
    (h : List.lookup i (buildMapping n1 n2 A) = some t) : i < n1 ∧ t < n2 :=
  buildMapping_mem n1 n2 A (i, t) (lookup_mem _ i t h)

theorem resolved_eq_some (m : List (Nat × Nat)) (i t : Nat) :
    resolved m i = some t ↔ List.lookup i m = some t ∧ t ≠ DUMMY := by
  constructor
  · intro h
    cases hl : List.lookup i m with
    | none => simp [resolved, hl] at h
    | some u =>
        simp only [resolved, hl] at h
        by_cases hu : u = DUMMY
        · rw [if_pos hu] at h; simp at h
        · rw [if_neg hu] at h
          obtain rfl : u = t := by simpa using h
          exact ⟨rfl, hu⟩
  · intro ⟨h1, h2⟩
    simp [resolved, h1, h2]

theorem resolved_eq_none (m : List (Nat × Nat)) (i : Nat) :
    resolved m i = none ↔ (List.lookup i m = none ∨ List.lookup i m = some DUMMY) := by
  cases hl : List.lookup i m with
  | none => simp [resolved, hl]
  | some u =>
      by_cases hu : u = DUMMY
      · subst hu; simp [resolved, hl]
      · simp [resolved, hl, hu]

theorem buildMapping_erase (n1 n2 : Nat) (A : List (Nat × Nat)) (p : Nat × Nat)
    (hout : ¬ (p.1 < n1 ∧ p.2 < n2)) :
    buildMapping n1 n2 (A.erase p) = buildMapping n1 n2 A := by
  have aux : ∀ (B : List (Nat × Nat)) (acc : List (Nat × Nat)),
      B.foldl
        (fun m a => if a.1 < n1 ∧ a.2 < n2 then insertAssoc m a.1 a.2 else m) acc
      = (B.erase p).foldl
        (fun m a => if a.1 < n1 ∧ a.2 < n2 then insertAssoc m a.1 a.2 else m) acc := by
    intro B
    induction B with
    | nil => intro acc; simp
    | cons q B' ih =>
        intro acc
        by_cases hq : q = p
        · subst hq
          rw [List.erase_cons_head]
          simp only [List.foldl_cons, if_neg hout]
        · rw [List.erase_cons_tail (by simpa using hq)]
          simp only [List.foldl_cons]
          exact ih _
  exact (aux A []).symm

theorem mem_allPairs (n : Nat) (p : Nat × Nat) :
    p ∈ allPairs n ↔ p.1 < p.2 ∧ p.2 < n := by
  obtain ⟨a, b⟩ := p
  constructor
  · intro h
    rcases List.mem_flatMap.1 h with ⟨i, hi, hmem⟩
    rcases List.mem_map.1 hmem with ⟨k, hk, hpk⟩
    obtain ⟨rfl, rfl⟩ := Prod.mk.injEq .. ▸ And.intro (congrArg Prod.fst hpk) (congrArg Prod.snd hpk)
    rcases List.mem_filter.1 hk with ⟨hkr, hik⟩
    exact ⟨by simpa using hik, List.mem_range.1 hkr⟩
  · intro ⟨h1, h2⟩
    refine List.mem_flatMap.2 ⟨a, List.mem_range.2 (lt_trans h1 h2), ?_⟩
    exact List.mem_map.2 ⟨b, List.mem_filter.2 ⟨List.mem_range.2 h2, by simpa using h1⟩, rfl⟩

theorem nodup_allPairs (n : Nat) : (allPairs n).Nodup := by
  refine List.nodup_flatMap.2 ⟨?_, ?_⟩
  · intro i _
    exact ((List.nodup_range n).filter _).map
      (fun k k' h => congrArg Prod.snd h)
  · refine List.Pairwise.imp ?_ (List.nodup_range n)
    intro i j hij
    intro x hx hx'
    rcases List.mem_map.1 hx with ⟨k, _, rfl⟩
    rcases List.mem_map.1 hx' with ⟨k', _, hk'⟩
    exact hij (congrArg Prod.fst hk'.symm)

theorem count_eq_one_of_nodup_mem {α : Type} [BEq α] [LawfulBEq α] :
    ∀ {l : List α} {a : α}, l.Nodup → a ∈ l → l.count a = 1 := by
  intro l
  induction l with
  | nil => intro a _ hm; simp at hm
  | cons b t ih =>
      intro a hn hm
      rcases List.mem_cons.1 hm with rfl | hmt
      · rw [List.count_cons_self]
        have hnotmem : a ∉ t := (List.nodup_cons.1 hn).1
        rw [List.count_eq_zero.2 hnotmem]
      · have hne : a ≠ b := by
          rintro rfl
          exact (List.nodup_cons.1 hn).1 hmt
        rw [List.count_cons_of_ne hne]
        exact ih (List.nodup_cons.1 hn).2 hmt

theorem count_allPairs (n i k : Nat) (h1 : i < k) (h2 : k < n) :
    (allPairs n).count (i, k) = 1 :=
  count_eq_one_of_nodup_mem (nodup_allPairs n) ((mem_allPairs n (i, k)).2 ⟨h1, h2⟩)

theorem stepFlag_succ (m : List (Nat × Nat)) (mm j : Nat)
    (hres : (resolved m mm).isNone = false) :
    (decide (j < mm + 1) && (resolved m j).isNone)
      = (decide (j < mm) && (resolved m j).isNone) := by
  by_cases hj : j = mm
  · subst hj
    rw [hres]
    simp
  · rw [decide_eq_decide.2 (by omega : (j < mm + 1) ↔ (j < mm))]

theorem nodeStep_spec (v1 v2 : GraphView) (m : List (Nat × Nat)) (s : GraphState)
    (nm mm : Nat) (hns : NSpec v1 m mm s) (hlt : mm < v1.n) :
    (nodeStep v2 m (s, nm) mm).2 = [opFor v1 v2 m mm] ∧
    NSpec v1 m (mm + 1) (nodeStep v2 m (s, nm) mm).1.1 ∧
    (nodeStep v2 m (s, nm) mm).1.2 = nm + (if isMatchAtB v1 v2 m mm then 1 else 0) := by
  obtain ⟨hAL, hNN, hAct, hLab, hELab, hEL2⟩ := hns
  have hactmm : s.active mm = true := by
    rw [hAct mm]
    simp [hlt]
  have hguard : ¬ (s.activeLen ≤ mm ∨ s.active mm = false) := by
    rw [hAL, hactmm]
    simp
    omega
  have hlabmm : s.labels mm = (initState v1).labels mm := hLab mm le_rfl
  cases hres : resolved m mm with
  | some t =>
      have hflag : (resolved m mm).isNone = false := by rw [hres]; rfl
      by_cases hdiff : s.labels mm = v2.nlab t
      · -- match branch
        have hstep : nodeStep v2 m (s, nm) mm
            = ((s, nm + 1), [EditOp.matchNode mm t (s.labels mm)]) := by
          simp only [nodeStep, if_neg hguard, hres]
          rw [if_neg (by simpa using hdiff)]
        rw [hstep]
        refine ⟨?_, ?_, ?_⟩
        · have : opFor v1 v2 m mm = EditOp.matchNode mm t ((initState v1).labels mm) := by
            simp only [opFor, hres]
            rw [if_neg (by rw [← hlabmm]; simpa using hdiff)]
          rw [this, hlabmm]
        · unfold NSpec
          refine ⟨hAL, hNN, ?_, ?_, ?_, hEL2⟩
          · intro j
            rw [hAct j, stepFlag_succ m mm j hflag]
          · intro j hj
            exact hLab j (by omega)
          · intro a b
            rw [hELab a b, stepFlag_succ m mm a hflag, stepFlag_succ m mm b hflag]
        · have : isMatchAtB v1 v2 m mm = true := by
            simp only [isMatchAtB, hres]
            rw [← hlabmm, hdiff]
            simp
          rw [this]
          simp
      · -- substitute branch
        have hstep : nodeStep v2 m (s, nm) mm
            = (({ s with labels := fun j => if j = mm then v2.nlab t else s.labels j }, nm),
               [EditOp.subNode mm t (s.labels mm) (v2.nlab t)]) := by
          simp only [nodeStep, if_neg hguard, hres]
          rw [if_pos (by simpa using hdiff)]
        rw [hstep]
        refine ⟨?_, ?_, ?_⟩
        · have : opFor v1 v2 m mm
              = EditOp.subNode mm t ((initState v1).labels mm) (v2.nlab t) := by
            simp only [opFor, hres]
            rw [if_pos (by rw [← hlabmm]; simpa using hdiff)]
          rw [this, hlabmm]
        · unfold NSpec
          refine ⟨hAL, hNN, ?_, ?_, ?_, hEL2⟩
          · intro j
            rw [hAct j, stepFlag_succ m mm j hflag]
          · intro j hj
            have hne : ¬ j = mm := by omega
            show (if j = mm then v2.nlab t else s.labels j) = _
            rw [if_neg hne]
            exact hLab j (by omega)
          · intro a b
            rw [hELab a b, stepFlag_succ m mm a hflag, stepFlag_succ m mm b hflag]
        · have : isMatchAtB v1 v2 m mm = false := by
            simp only [isMatchAtB, hres]
            rw [← hlabmm]
            exact beq_eq_false_iff_ne.2 hdiff
          rw [this]
          simp
  | none =>
      have hflag : (resolved m mm).isNone = true := by rw [hres]; rfl
      have hstep : nodeStep v2 m (s, nm) mm
          = (({ s with
                  active := fun j => if j = mm then false else s.active j,
                  edgeExists := fun a b =>
                    if (a = mm ∧ a < b ∧ b < s.numNodes) ∨ (b = mm ∧ a < b ∧ a < s.numNodes)
                    then false else s.edgeExists a b }, nm),
             [EditOp.delNode mm (s.labels mm)]) := by
        simp only [nodeStep, if_neg hguard, hres]
      rw [hstep]
      refine ⟨?_, ?_, ?_⟩
      · have : opFor v1 v2 m mm = EditOp.delNode mm ((initState v1).labels mm) := by
          simp only [opFor, hres]
        rw [this, hlabmm]
      · unfold NSpec
        refine ⟨hAL, hNN, ?_, ?_, ?_, hEL2⟩
        · intro j
          show (if j = mm then false else s.active j) = _
          by_cases hj : j = mm
          · subst hj
            rw [if_pos rfl, hflag]
            have : decide (j < j + 1) = true := by simp
            rw [this]
            simp
          · rw [if_neg hj, hAct j,
              decide_eq_decide.2 (by omega : (j < mm + 1) ↔ (j < mm))]
        · intro j hj
          exact hLab j (by omega)
        · intro a b
          show (if (a = mm ∧ a < b ∧ b < s.numNodes) ∨ (b = mm ∧ a < b ∧ a < s.numNodes)
              then false else s.edgeExists a b) = _
          by_cases hC : (a = mm ∧ a < b ∧ b < s.numNodes) ∨ (b = mm ∧ a < b ∧ a < s.numNodes)
          · rw [if_pos hC]
            rcases hC with ⟨ha, hab, hbn⟩ | ⟨hb, hab, han⟩
            · have h1 : decide (a < mm + 1) = true := by
                rw [ha]
                exact decide_eq_true (by omega)
              have h2 : (resolved m a).isNone = true := by rw [ha]; exact hflag
              rw [h1, h2]
              simp
            · have h1 : decide (b < mm + 1) = true := by
                rw [hb]
                exact decide_eq_true (by omega)
              have h2 : (resolved m b).isNone = true := by rw [hb]; exact hflag
              rw [h1, h2]
              simp
          · rw [if_neg hC, hELab a b]
            rcases Bool.eq_false_or_eq_true ((initState v1).edgeExists a b) with hE | hE
            · have hEprop : a < b ∧ b < v1.n := by
                have h := hE
                simp only [initState, Bool.and_eq_true, decide_eq_true_eq] at h
                exact ⟨h.1.1, h.1.2⟩
              have hamm : ¬ a = mm := by
                intro ha
                exact hC (Or.inl ⟨ha, hEprop.1, by omega⟩)
              have hbmm : ¬ b = mm := by
                intro hb
                exact hC (Or.inr ⟨hb, hEprop.1, by omega⟩)
              rw [decide_eq_decide.2 (by omega : (a < mm + 1) ↔ (a < mm)),
                decide_eq_decide.2 (by omega : (b < mm + 1) ↔ (b < mm))]
            · rw [hE]
              simp
      · have : isMatchAtB v1 v2 m mm = false := by
          simp only [isMatchAtB, hres]
        rw [this]
        simp

theorem nodePhase_spec (v1 v2 : GraphView) (m : List (Nat × Nat)) :
    ∀ (c mm : Nat) (s : GraphState) (nm : Nat), mm + c ≤ v1.n → NSpec v1 m mm s →
      (runOps (nodeStep v2 m) (s, nm) (List.range' mm c)).2
        = (List.range' mm c).map (opFor v1 v2 m) ∧
      NSpec v1 m (mm + c) (runOps (nodeStep v2 m) (s, nm) (List.range' mm c)).1.1 ∧
      (runOps (nodeStep v2 m) (s, nm) (List.range' mm c)).1.2
        = nm + ((List.range' mm c).filter (fun i => isMatchAtB v1 v2 m i)).length := by
  intro c
  induction c with
  | zero =>
      intro mm s nm h hns
      refine ⟨rfl, ?_, by simp [runOps]⟩
      simpa using hns
  | succ c ih =>
      intro mm s nm h hns
      have hlt : mm < v1.n := by omega
      obtain ⟨hops, hns', hnm⟩ := nodeStep_spec v1 v2 m s nm mm hns hlt
      have hrange : List.range' mm (c + 1) = mm :: List.range' (mm + 1) c := rfl
      rw [hrange, runOps_cons]
      have ih' := ih (mm + 1) (nodeStep v2 m (s, nm) mm).1.1
        (nodeStep v2 m (s, nm) mm).1.2 (by omega) hns'
      rw [show ((nodeStep v2 m (s, nm) mm).1.1, (nodeStep v2 m (s, nm) mm).1.2)
          = (nodeStep v2 m (s, nm) mm).1 from rfl] at ih'
      refine ⟨?_, ?_, ?_⟩
      · rw [hops, ih'.1, List.map_cons]
        rfl
      · rw [show mm + (c + 1) = (mm + 1) + c from by omega]
        exact ih'.2.1
      · rw [ih'.2.2, hnm, List.filter_cons]
        by_cases hmatch : isMatchAtB v1 v2 m mm = true
        · simp only [hmatch, if_true, List.length_cons]
          omega
        · simp only [Bool.not_eq_true] at hmatch
          simp only [hmatch, Bool.false_eq_true, if_false]
          omega

theorem ACount_succ (n1 : Nat) (m : List (Nat × Nat)) (mm : Nat) :
    ACount n1 m (mm + 1)
      = ACount n1 m mm + (if (!(isTargetB m mm) && decide (n1 ≤ mm)) then 1 else 0) := by
  simp only [ACount, List.range_succ, List.filter_append, List.length_append]
  by_cases hp : (!(isTargetB m mm) && decide (n1 ≤ mm)) = true
  · simp [List.filter, hp]
  · simp only [Bool.not_eq_true] at hp
    simp [List.filter, hp]

theorem ACount_bound (n1 : Nat) (m : List (Nat × Nat)) :
    ∀ mm, n1 + ACount n1 m mm ≤ max n1 mm := by
  intro mm
  induction mm with
  | zero => simp [ACount]
  | succ mm ih =>
      rw [ACount_succ]
      by_cases hp : (!(isTargetB m mm) && decide (n1 ≤ mm)) = true
      · have hle : n1 ≤ mm := by
          simp only [Bool.and_eq_true, decide_eq_true_eq] at hp
          exact hp.2
        rw [if_pos hp]
        have : max n1 mm = mm := by omega
        rw [this] at ih
        have : max n1 (mm + 1) = mm + 1 := by omega
        omega
      · rw [if_neg hp]
        have h1 : max n1 mm ≤ max n1 (mm + 1) := by omega
        omega

theorem if_cond_succ (P : Prop) [Decidable P] (act : Bool) (mm j : Nat)
    (h : j = mm → ¬ P) :
    (if j < mm ∧ P then true else act) = (if j < mm + 1 ∧ P then true else act) := by
  by_cases hjm : j = mm
  · rw [if_neg (fun hc => h hjm hc.2), if_neg (fun hc => h hjm hc.2)]
  · have hiff : (j < mm ∧ P) ↔ (j < mm + 1 ∧ P) :=
      ⟨fun hc => ⟨by omega, hc.2⟩, fun hc => ⟨by omega, hc.2⟩⟩
    rw [if_congr hiff rfl rfl]

theorem insertStep_spec (v2 : GraphView) (m : List (Nat × Nat)) (n1 : Nat)
    (act0 : Nat → Bool) (e0 : Nat → Nat → Bool) (el0 : Nat → Nat → String)
    (st : GraphState) (mm : Nat)
    (his : ISpec n1 m act0 e0 el0 mm st) :
    (insertStep v2 m st mm).2 = insChunk v2 m n1 act0 mm ∧
    ISpec n1 m act0 e0 el0 (mm + 1) (insertStep v2 m st mm).1 := by
  obtain ⟨hN, hAL, hAlo, hAhi, hE, hEL⟩ := his
  by_cases htgt : isTargetB m mm = true
  · -- matched target: skipped
    have hstep : insertStep v2 m st mm = (st, []) := by
      simp only [insertStep, if_pos htgt]
    rw [hstep]
    have hchunk : insChunk v2 m n1 act0 mm = [] := by
      simp [insChunk, insCondB, htgt]
    have hcnt : ACount n1 m (mm + 1) = ACount n1 m mm := by
      rw [ACount_succ, htgt]
      simp
    refine ⟨hchunk.symm, ?_⟩
    unfold ISpec
    rw [hcnt]
    refine ⟨hN, hAL, ?_, hAhi, hE, hEL⟩
    intro j hj
    rw [hAlo j hj]
    exact if_cond_succ _ _ mm j (fun hjm hP => by rw [hjm] at hP; rw [htgt] at hP; simp at hP)
  · have htgt' : isTargetB m mm = false := by
      simp only [Bool.not_eq_true] at htgt
      exact htgt
    by_cases hre : mm < st.numNodes ∧ st.active mm = false
    · -- reuse of an inactive slot
      have hmmlt : mm < n1 := by
        by_contra h'
        have hge : n1 ≤ mm := by omega
        have := hAhi mm hge
        rw [← hN] at this
        rw [decide_eq_true hre.1] at this
        rw [hre.2] at this
        simp at this
      have hact0mm : act0 mm = false := by
        have := hAlo mm hmmlt
        rw [if_neg (fun hc => by omega : ¬ (mm < mm ∧ isTargetB m mm = false))] at this
        rw [← this]
        exact hre.2
      have hstep : insertStep v2 m st mm
          = ({ st with active := fun a => if a = mm then true else st.active a,
                       labels := fun a => if a = mm then v2.nlab mm else st.labels a },
             [EditOp.insNode mm (v2.nlab mm)]) := by
        simp only [insertStep, if_neg htgt, if_pos hre]
      rw [hstep]
      have hchunk : insChunk v2 m n1 act0 mm = [EditOp.insNode mm (v2.nlab mm)] := by
        simp [insChunk, insCondB, htgt', hact0mm]
      have hcnt : ACount n1 m (mm + 1) = ACount n1 m mm := by
        rw [ACount_succ]
        rw [if_neg (by
          intro hp
          simp only [Bool.and_eq_true, decide_eq_true_eq] at hp
          omega)]
        omega
      refine ⟨hchunk.symm, ?_⟩
      unfold ISpec
      rw [hcnt]
      refine ⟨hN, hAL, ?_, ?_, hE, hEL⟩
      · intro j hj
        show (if j = mm then true else st.active j) = _
        by_cases hjm : j = mm
        · rw [if_pos hjm]
          rw [if_pos ⟨by omega, by rw [hjm]; exact htgt'⟩]
        · rw [if_neg hjm, hAlo j hj]
          exact if_cond_succ _ _ mm j (fun h => absurd h hjm)
      · intro j hj
        show (if j = mm then true else st.active j) = _
        rw [if_neg (by omega : ¬ j = mm)]
        exact hAhi j hj
    · by_cases happ : st.numNodes ≤ mm
      · -- append of a fresh slot
        have hge : n1 ≤ mm := by omega
        have hstep : insertStep v2 m st mm
            = ({ st with activeLen := st.activeLen + 1,
                         active := fun a => if a = st.activeLen then true else st.active a,
                         labels := fun a => if a = st.activeLen then v2.nlab mm else st.labels a,
                         numNodes := st.numNodes + 1 },
               [EditOp.insNode mm (v2.nlab mm)]) := by
          simp only [insertStep, if_neg htgt, if_neg hre, if_pos happ]
        rw [hstep]
        have hchunk : insChunk v2 m n1 act0 mm = [EditOp.insNode mm (v2.nlab mm)] := by
          simp [insChunk, insCondB, htgt', hge]
        have hcnt : ACount n1 m (mm + 1) = ACount n1 m mm + 1 := by
          rw [ACount_succ]
          rw [if_pos (by
            rw [htgt']
            simp [hge])]
        refine ⟨hchunk.symm, ?_⟩
        unfold ISpec
        rw [hcnt]
        refine ⟨by show st.numNodes + 1 = _; omega,
          by show st.activeLen + 1 = st.numNodes + 1; omega, ?_, ?_, hE, hEL⟩
        · intro j hj
          show (if j = st.activeLen then true else st.active j) = _
          rw [if_neg (by rw [hAL, hN]; omega : ¬ j = st.activeLen)]
          rw [hAlo j hj]
          exact if_cond_succ _ _ mm j (fun h => by omega)
        · intro j hj
          show (if j = st.activeLen then true else st.active j) = _
          rw [hAL, hN]
          by_cases hjn : j = n1 + ACount n1 m mm
          · rw [if_pos hjn]
            exact (decide_eq_true (by omega)).symm
          · rw [if_neg hjn, hAhi j hj]
            exact decide_eq_decide.2 (by omega)
      · -- unmatched target on a still-active slot: skipped
        have hmmlt : mm < n1 := by
          by_contra h'
          have hge : n1 ≤ mm := by omega
          have hb := ACount_bound n1 m mm
          have : max n1 mm = mm := by omega
          omega
        have hactmm : st.active mm = true := by
          rcases Bool.eq_false_or_eq_true (st.active mm) with h | h
          · exact h
          · exact absurd ⟨by omega, h⟩ hre
        have hact0mm : act0 mm = true := by
          have := hAlo mm hmmlt
          rw [if_neg (fun hc => by omega : ¬ (mm < mm ∧ isTargetB m mm = false))] at this
          rw [← this]
          exact hactmm
        have hstep : insertStep v2 m st mm = (st, []) := by
          simp only [insertStep, if_neg htgt, if_neg hre, if_neg happ]
        rw [hstep]
        have hchunk : insChunk v2 m n1 act0 mm = [] := by
          simp [insChunk, insCondB, htgt', hact0mm]
          omega
        have hcnt : ACount n1 m (mm + 1) = ACount n1 m mm := by
          rw [ACount_succ]
          rw [if_neg (by
            intro hp
            simp only [Bool.and_eq_true, decide_eq_true_eq] at hp
            omega)]
          omega
        refine ⟨hchunk.symm, ?_⟩
        unfold ISpec
        rw [hcnt]
        refine ⟨hN, hAL, ?_, hAhi, hE, hEL⟩
        intro j hj
        rw [hAlo j hj]
        by_cases hjm : j = mm
        · rw [if_neg (fun hc => by omega : ¬ (j < mm ∧ isTargetB m j = false)),
            if_pos ⟨by omega, by rw [hjm]; exact htgt'⟩]
          rw [hjm, hact0mm]
        · exact if_cond_succ _ _ mm j (fun h => absurd h hjm)

theorem insertPhase_spec (v2 : GraphView) (m : List (Nat × Nat)) (n1 : Nat)
    (act0 : Nat → Bool) (e0 : Nat → Nat → Bool) (el0 : Nat → Nat → String) :
    ∀ (c mm : Nat) (s : GraphState), ISpec n1 m act0 e0 el0 mm s →
      (runOps (insertStep v2 m) s (List.range' mm c)).2
        = (List.range' mm c).flatMap (insChunk v2 m n1 act0) ∧
      ISpec n1 m act0 e0 el0 (mm + c) (runOps (insertStep v2 m) s (List.range' mm c)).1 := by
  intro c
  induction c with
  | zero =>
      intro mm s his
      exact ⟨rfl, by simpa using his⟩
  | succ c ih =>
      intro mm s his
      obtain ⟨hops, his'⟩ := insertStep_spec v2 m n1 act0 e0 el0 s mm his
      have hrange : List.range' mm (c + 1) = mm :: List.range' (mm + 1) c := rfl
      rw [hrange, runOps_cons]
      have ih' := ih (mm + 1) (insertStep v2 m s mm).1 his'
      refine ⟨?_, ?_⟩
      · rw [hops, ih'.1, List.flatMap_cons]
      · rw [show mm + (c + 1) = (mm + 1) + c from by omega]
        exact ih'.2

/-- The active function left by the node phase, seen by the insert phase. -/
def act0Of (m : List (Nat × Nat)) : Nat → Bool :=
  fun j => !((resolved m j).isNone)

/-- The edge matrix left by the node phase. -/
def S1edge (v1 : GraphView) (m : List (Nat × Nat)) : Nat → Nat → Bool :=
  fun a b =>
    ((initState v1).edgeExists a b &&
      !((decide (a < v1.n) && (resolved m a).isNone) ||
        (decide (b < v1.n) && (resolved m b).isNone)))

theorem NSpec_init (v1 : GraphView) (m : List (Nat × Nat)) :
    NSpec v1 m 0 (initState v1) := by
  unfold NSpec
  refine ⟨rfl, rfl, ?_, fun j _ => rfl, ?_, fun a b => rfl⟩
  · intro j
    have : decide (j < 0) = false := by simp
    rw [this]
    simp [initState]
  · intro a b
    have ha : decide (a < 0) = false := by simp
    have hb : decide (b < 0) = false := by simp
    rw [ha, hb]
    simp

theorem NSpec_to_ISpec (v1 : GraphView) (m : List (Nat × Nat)) (s : GraphState)
    (hns : NSpec v1 m v1.n s) :
    ISpec v1.n m (act0Of m) (S1edge v1 m) ((initState v1).edgeLabels) 0 s := by
  obtain ⟨hAL, hNN, hAct, hLab, hE, hEL⟩ := hns
  unfold ISpec
  have hA0 : ACount v1.n m 0 = 0 := rfl
  rw [hA0]
  refine ⟨by omega, by omega, ?_, ?_, hE, hEL⟩
  · intro j hj
    rw [if_neg (by omega : ¬ (j < 0 ∧ isTargetB m j = false))]
    rw [hAct j, decide_eq_true hj]
    simp [act0Of]
  · intro j hj
    rw [hAct j]
    have : decide (j < v1.n) = false := by
      rw [decide_eq_false_iff_not]
      omega
    rw [this]
    have : decide (j < v1.n + 0) = false := by
      rw [decide_eq_false_iff_not]
      omega
    rw [this]
    simp

theorem nodePhase_final (v1 v2 : GraphView) (m : List (Nat × Nat)) (nm : Nat) :
    (runOps (nodeStep v2 m) (initState v1, nm) (List.range v1.n)).2
      = (List.range v1.n).map (opFor v1 v2 m) ∧
    NSpec v1 m v1.n (runOps (nodeStep v2 m) (initState v1, nm) (List.range v1.n)).1.1 ∧
    (runOps (nodeStep v2 m) (initState v1, nm) (List.range v1.n)).1.2
      = nm + ((List.range v1.n).filter (fun i => isMatchAtB v1 v2 m i)).length := by
  have h := nodePhase_spec v1 v2 m v1.n 0 (initState v1) nm (by omega) (NSpec_init v1 m)
  rw [List.range_eq_range']
  simpa using h

theorem insertPhase_final (v2 : GraphView) (m : List (Nat × Nat)) (n1 : Nat)
    (act0 : Nat → Bool) (e0 : Nat → Nat → Bool) (el0 : Nat → Nat → String)
    (s : GraphState) (his : ISpec n1 m act0 e0 el0 0 s) :
    (runOps (insertStep v2 m) s (List.range v2.n)).2
      = (List.range v2.n).flatMap (insChunk v2 m n1 act0) ∧
    ISpec n1 m act0 e0 el0 v2.n (runOps (insertStep v2 m) s (List.range v2.n)).1 := by
  have h := insertPhase_spec v2 m n1 act0 e0 el0 v2.n 0 s his
  rw [List.range_eq_range']
  simpa using h

theorem isResolveOpFor_opFor (v1 v2 : GraphView) (m : List (Nat × Nat)) (i x : Nat) :
    isResolveOpFor i (opFor v1 v2 m x) = (x == i) := by
  simp only [opFor]
  cases resolved m x with
  | some t =>
      by_cases h : (initState v1).labels x = v2.nlab t
      · simp [h, isResolveOpFor]
      · simp [h, isResolveOpFor]
  | none => simp [isResolveOpFor]

theorem isNodeOp_opFor (v1 v2 : GraphView) (m : List (Nat × Nat)) (x : Nat) :
    isNodeOp (opFor v1 v2 m x) = true := by
  simp only [opFor]
  cases resolved m x with
  | some t =>
      by_cases h : (initState v1).labels x = v2.nlab t
      · simp [h, isNodeOp]
      · simp [h, isNodeOp]
  | none => simp [isNodeOp]

theorem opRank_opFor (v1 v2 : GraphView) (m : List (Nat × Nat)) (x : Nat) :
    opRank (opFor v1 v2 m x) = 0 := by
  simp only [opFor]
  cases resolved m x with
  | some t =>
      by_cases h : (initState v1).labels x = v2.nlab t
      · simp [h, opRank]
      · simp [h, opRank]
  | none => simp [opRank]

theorem mem_insChunk (v2 : GraphView) (m : List (Nat × Nat)) (n1 : Nat)
    (act0 : Nat → Bool) (j : Nat) (op : EditOp) (h : op ∈ insChunk v2 m n1 act0 j) :
    op = EditOp.insNode j (v2.nlab j) := by
  simp only [insChunk] at h
  split at h
  · simpa using h
  · simp at h

theorem insChunk_countP_self (v2 : GraphView) (m : List (Nat × Nat)) (n1 : Nat)
    (act0 : Nat → Bool) (j : Nat) :
    (insChunk v2 m n1 act0 j).countP (isInsertOpFor j)
      = if insCondB m n1 act0 j then 1 else 0 := by
  simp only [insChunk]
  split
  · simp [isInsertOpFor]
  · simp

theorem insChunk_countP_ne (v2 : GraphView) (m : List (Nat × Nat)) (n1 : Nat)
    (act0 : Nat → Bool) (j j' : Nat) (hne : j ≠ j') :
    (insChunk v2 m n1 act0 j).countP (isInsertOpFor j') = 0 := by
  simp only [insChunk]
  split
  · simp [isInsertOpFor, hne]
  · simp

theorem insChunk_countP_nodeOp (v2 : GraphView) (m : List (Nat × Nat)) (n1 : Nat)
    (act0 : Nat → Bool) (j : Nat) :
    (insChunk v2 m n1 act0 j).countP isNodeOp
      = if insCondB m n1 act0 j then 1 else 0 := by
  simp only [insChunk]
  split
  · simp [isNodeOp]
  · simp

theorem insChunk_countP_resolve (v2 : GraphView) (m : List (Nat × Nat)) (n1 : Nat)
    (act0 : Nat → Bool) (j i : Nat) :
    (insChunk v2 m n1 act0 j).countP (isResolveOpFor i) = 0 := by
  simp only [insChunk]
  split
  · simp [isResolveOpFor]
  · simp

theorem g1EdgeStep_ops (v1 v2 : GraphView) (m : List (Nat × Nat))
    (s : GraphState × Nat) (p : Nat × Nat) :
    ∀ op ∈ (g1EdgeStep v1 v2 m s p).2, isG1EdgeOpFor p op = true := by
  intro op hop
  simp only [g1EdgeStep] at hop
  repeat' split at hop
  all_goals simp at hop
  all_goals subst hop
  all_goals simp [isG1EdgeOpFor]

theorem g2EdgeStep_ops (v2 : GraphView) (st : GraphState) (p : Nat × Nat) :
    ∀ op ∈ (g2EdgeStep v2 st p).2, op = EditOp.insEdge (p.1, p.2) := by
  intro op hop
  simp only [g2EdgeStep] at hop
  repeat' split at hop
  all_goals simp at hop
  all_goals simp [hop]

theorem g1EdgeOp_shape (p : Nat × Nat) (op : EditOp) (h : isG1EdgeOpFor p op = true) :
    isNodeOp op = false ∧ opRank op = 1 ∧
    (∀ i, isResolveOpFor i op = false) ∧ (∀ j, isInsertOpFor j op = false) := by
  cases op <;> simp_all [isG1EdgeOpFor, isNodeOp, opRank, isResolveOpFor, isInsertOpFor]

theorem extractWithMapping_eq (v1 v2 : GraphView) (m : List (Nat × Nat)) (nm em : Nat) :
    extractWithMapping v1 v2 m nm em =
      { ops := (phase1 v1 v2 m nm).2 ++ (phase2 v1 v2 m nm).2
          ++ (phase3 v1 v2 m nm em).2 ++ (phase4 v1 v2 m nm em).2,
        nodeMatches := (phase1 v1 v2 m nm).1.2,
        edgeMatches := (phase3 v1 v2 m nm em).1.2,
        finalState := (phase4 v1 v2 m nm em).1 } := rfl

/-- C9: extractEditPath is deterministic: two runs on the same graphs, the
same correspondence and the same incoming counter values produce identical
operation sequences and identical counters. -/
theorem C9_deterministic (g1 g2 : ExGraph) (A : List (Nat × Nat)) (nm0 em0 : Nat)
    (r1 r2 : ExtractResult)
    (h1 : r1 = extractEditPath g1 g2 A nm0 em0)
    (h2 : r2 = extractEditPath g1 g2 A nm0 em0) :
    r1.ops = r2.ops ∧ r1.nodeMatches = r2.nodeMatches ∧ r1.edgeMatches = r2.edgeMatches := by
  subst h1
  subst h2
  exact ⟨rfl, rfl, rfl⟩

theorem C9_deterministic_witness :
    (extractEditPath gAB gAC [(0, 0)] 0 0).ops = (extractEditPath gAB gAC [(0, 0)] 0 0).ops ∧
    (extractEditPath gAB gAC [(0, 0)] 0 0).nodeMatches
      = (extractEditPath gAB gAC [(0, 0)] 0 0).nodeMatches ∧
    (extractEditPath gAB gAC [(0, 0)] 0 0).edgeMatches
      = (extractEditPath gAB gAC [(0, 0)] 0 0).edgeMatches :=
  C9_deterministic gAB gAC [(0, 0)] 0 0 _ _ rfl rfl

/-- C6: a correspondence pair whose source is at or past N1 or whose target is
at or past N2 is silently ignored: the output equals the output on the
correspondence with that pair removed. -/
theorem C6_out_of_range_ignored (g1 g2 : ExGraph) (A : List (Nat × Nat))
    (p : Nat × Nat) (nm0 em0 : Nat) (hmem : p ∈ A)
    (hout : g1.num_nodes ≤ p.1 ∨ g2.num_nodes ≤ p.2) :
    extractEditPath g1 g2 A nm0 em0 = extractEditPath g1 g2 (A.erase p) nm0 em0 := by
  unfold extractEditPath extractViews
  rw [buildMapping_erase (toView g1).n (toView g2).n A p (by
    show ¬ (p.1 < g1.num_nodes ∧ p.2 < g2.num_nodes)
    omega)]

theorem C6_out_of_range_ignored_witness :
    ((1, DUMMY) ∈ [(0, 0), (1, DUMMY)] ∧
      (gAB.num_nodes ≤ 1 ∨ gAC.num_nodes ≤ DUMMY)) ∧
    extractEditPath gAB gAC [(0, 0), (1, DUMMY)] 0 0
      = extractEditPath gAB gAC ([(0, 0), (1, DUMMY)].erase (1, DUMMY)) 0 0 :=
  ⟨⟨by decide, Or.inr (by decide)⟩,
    C6_out_of_range_ignored gAB gAC [(0, 0), (1, DUMMY)] (1, DUMMY) 0 0
      (by decide) (Or.inr (by decide))⟩

/-- C2 counterexample: on Graph1 = {A,B} with edge (0,1), Graph2 = {A,C} with
edge (0,1) and correspondence {0 to 0, 1 to DUMMY}, the output is NOT the
claimed sequence containing a delete_edge annotated "endpoint deleted": the
node-deletion cascade has already deactivated the edge, so no delete_edge is
emitted at all. -/
theorem C2_counterexample :
    ¬ ((extractEditPath gAB gAC [(0, 0), (1, DUMMY)] 0 0).ops
        = [EditOp.matchNode 0 0 "label=A;", EditOp.delNode 1 "label=B;",
           EditOp.insNode 1 "label=C;", EditOp.delEdge (0, 1) true,
           EditOp.insEdge (0, 1)]) := by
  decide

/-- C2 amended: the actual output on that input is match(0,0,"A"),
delete(1,"B"), insert(1,"C") reusing slot 1, insert_edge(0,1) — with no
delete_edge — and node_matches = 1, edge_matches = 0. -/
theorem C2_amended :
    (extractEditPath gAB gAC [(0, 0), (1, DUMMY)] 0 0).ops
      = [EditOp.matchNode 0 0 "label=A;", EditOp.delNode 1 "label=B;",
         EditOp.insNode 1 "label=C;", EditOp.insEdge (0, 1)] ∧
    (extractEditPath gAB gAC [(0, 0), (1, DUMMY)] 0 0).nodeMatches = 1 ∧
    (extractEditPath gAB gAC [(0, 0), (1, DUMMY)] 0 0).edgeMatches = 0 := by
  refine ⟨by decide, by decide, by decide⟩

/-- C1 counterexample: with Graph1 = Graph2 = two isolated nodes and the
correspondence {0 to 1}, Graph2 node 0 is unmatched but its slot is still
active, so no insert is emitted for it: the total number of node-level
operations is 2, not N1 + (N2 - valid targets) = 3. -/
theorem C1_counterexample :
    ¬ (((extractEditPath gABiso gABiso [(0, 1)] 0 0).ops.countP isNodeOp)
        = gABiso.num_nodes + (gABiso.num_nodes
            - targetCount (buildMapping gABiso.num_nodes gABiso.num_nodes [(0, 1)])
                gABiso.num_nodes)) := by
  decide

theorem lookup_append {α β : Type} [BEq α] (l1 l2 : List (α × β)) (k : α) :
    List.lookup k (l1 ++ l2)
      = (match List.lookup k l1 with
        | some v => some v
        | none => List.lookup k l2) := by
  induction l1 with
  | nil => simp [List.lookup]
  | cons p t ih =>
      obtain ⟨a, b⟩ := p
      show List.lookup k ((a, b) :: (t ++ l2)) = _
      cases hab : (k == a) with
      | true => simp [List.lookup, hab]
      | false => simp [List.lookup, hab, ih]

theorem lookup_pad_val :
    ∀ (l : List (Nat × Nat)) (k : Nat × Nat) (v : List (String × String)),
      List.lookup k (l.map (fun p => (p, ([] : List (String × String))))) = some v →
      v = [] := by
  intro l
  induction l with
  | nil => intro k v h; simp [List.lookup] at h
  | cons p t ih =>
      intro k v h
      rw [List.map_cons] at h
      cases hkp : (k == p) with
      | true =>
          simp [List.lookup, hkp] at h
          exact h
      | false =>
          simp only [List.lookup, hkp] at h
          exact ih k v h

theorem getD_replicate_self {α : Type} (k n : Nat) (a : α) :
    (List.replicate k a).getD n a = a := by
  by_cases h : n < k
  · rw [List.getD_eq_getElem _ _ (by simpa using h)]
    simp
  · exact List.getD_eq_default _ _ (by simp; omega)

theorem nodeCanon_padGraph (g : ExGraph) : ∀ i, nodeCanon (padGraph g) i = nodeCanon g i := by
  intro i
  have hlen : (padGraph g).node_labels.length
      = g.node_labels.length + (g.num_nodes - g.node_labels.length) := by
    simp [padGraph]
  by_cases h1 : i < g.node_labels.length
  · unfold nodeCanon
    rw [if_pos h1, if_pos (by omega)]
    show canon ((g.node_labels ++ _).getD i []) = _
    rw [List.getD_append _ _ _ _ h1]
  · by_cases h2 : i < (padGraph g).node_labels.length
    · unfold nodeCanon
      rw [if_pos h2, if_neg h1]
      have hpad : (padGraph g).node_labels.getD i [] = [] := by
        show (g.node_labels ++ List.replicate (g.num_nodes - g.node_labels.length) []).getD i []
          = []
        rw [List.getD_append_right _ _ _ _ (by omega)]
        exact getD_replicate_self _ _ _
      rw [hpad]
      rfl
    · unfold nodeCanon
      rw [if_neg h1, if_neg h2]

theorem edgeCanonOf_padGraph (g : ExGraph) :
    ∀ a b, edgeCanonOf (padGraph g) a b = edgeCanonOf g a b := by
  intro a b
  show (match List.lookup (a, b) (g.edge_labels ++ _) with
        | some mm => canon mm
        | none => "") = edgeCanonOf g a b
  rw [lookup_append]
  cases h : List.lookup (a, b) g.edge_labels with
  | some v => simp [edgeCanonOf, h]
  | none =>
      simp only
      cases h2 : List.lookup (a, b)
          (((allPairs g.num_nodes).filter
              (fun p => adjAt g p.1 p.2 && (List.lookup p g.edge_labels).isNone)).map
            (fun p => (p, ([] : List (String × String))))) with
      | some v =>
          have hv : v = [] := lookup_pad_val _ _ _ h2
          subst hv
          simp [edgeCanonOf, h]
          rfl
      | none => simp [edgeCanonOf, h]

theorem toView_padGraph (g : ExGraph) : toView (padGraph g) = toView g := by
  show GraphView.mk _ _ _ _ = GraphView.mk _ _ _ _
  rw [GraphView.mk.injEq]
  refine ⟨rfl, ?_, rfl, ?_⟩
  · funext i
    exact nodeCanon_padGraph g i
  · funext a b
    exact edgeCanonOf_padGraph g a b

/-- C7: a node index beyond the node-label table and an adjacent pair absent
from the edge-label map are both treated as the empty canonical label: making
those entries explicit empty attribute maps (padGraph) leaves the output of
extractEditPath unchanged, and the canonical label of any missing entry is
exactly the canonical form of the empty attribute map. -/
theorem C7_missing_labels_empty (g1 g2 : ExGraph) (A : List (Nat × Nat)) (nm0 em0 : Nat) :
    extractEditPath (padGraph g1) (padGraph g2) A nm0 em0
      = extractEditPath g1 g2 A nm0 em0 ∧
    (∀ i, g1.node_labels.length ≤ i → nodeCanon g1 i = canon []) ∧
    (∀ a b, List.lookup (a, b) g1.edge_labels = none → edgeCanonOf g1 a b = canon []) := by
  refine ⟨?_, ?_, ?_⟩
  · unfold extractEditPath
    rw [toView_padGraph, toView_padGraph]
  · intro i hi
    unfold nodeCanon
    rw [if_neg (by omega)]
    rfl
  · intro a b h
    simp [edgeCanonOf, h]
    rfl

theorem C7_missing_labels_empty_witness :
    extractEditPath (padGraph gAB) (padGraph gAC) [(0, 0)] 0 0
      = extractEditPath gAB gAC [(0, 0)] 0 0 ∧
    nodeCanon gAB 2 = canon [] ∧ edgeCanonOf gAB 0 1 = canon [] :=
  ⟨(C7_missing_labels_empty gAB gAC [(0, 0)] 0 0).1,
    (C7_missing_labels_empty gAB gAC [(0, 0)] 0 0).2.1 2 (by decide),
    (C7_missing_labels_empty gAB gAC [(0, 0)] 0 0).2.2 0 1 rfl⟩

theorem extract_ops_eq (v1 v2 : GraphView) (m : List (Nat × Nat)) (nm em : Nat) :
    (extractWithMapping v1 v2 m nm em).ops
      = (phase1 v1 v2 m nm).2 ++ (phase2 v1 v2 m nm).2
          ++ (phase3 v1 v2 m nm em).2 ++ (phase4 v1 v2 m nm em).2 := by
  rw [extractWithMapping_eq]

theorem extract_nm_eq (v1 v2 : GraphView) (m : List (Nat × Nat)) (nm em : Nat) :
    (extractWithMapping v1 v2 m nm em).nodeMatches = (phase1 v1 v2 m nm).1.2 := by
  rw [extractWithMapping_eq]

theorem extract_em_eq (v1 v2 : GraphView) (m : List (Nat × Nat)) (nm em : Nat) :
    (extractWithMapping v1 v2 m nm em).edgeMatches = (phase3 v1 v2 m nm em).1.2 := by
  rw [extractWithMapping_eq]

theorem extract_final_eq (v1 v2 : GraphView) (m : List (Nat × Nat)) (nm em : Nat) :
    (extractWithMapping v1 v2 m nm em).finalState = (phase4 v1 v2 m nm em).1 := by
  rw [extractWithMapping_eq]

theorem countP_flatMap_zero (g : Nat → List EditOp) (p : EditOp → Bool)
    (h : ∀ j, ((g j).countP p) = 0) : ∀ l : List Nat, ((l.flatMap g).countP p) = 0 := by
  intro l
  rw [countP_flatMap_chunks]
  apply List.sum_eq_zero
  intro x hx
  rcases List.mem_map.1 hx with ⟨j, _, rfl⟩
  exact h j

theorem countP_beq_range (n i : Nat) :
    (List.range n).countP (fun x => x == i) = if i < n then 1 else 0 := by
  induction n with
  | zero => simp
  | succ n ih =>
      rw [List.range_succ, List.countP_append, ih]
      have hsing : (List.countP (fun x => x == i) [n]) = if n = i then 1 else 0 := by
        by_cases h : n = i
        · simp [List.countP_cons, h]
        · simp [List.countP_cons, h]
      rw [hsing]
      by_cases h : n = i
      · rw [if_pos h, if_neg (by omega), if_pos (by omega)]
      · rw [if_neg h]
        by_cases h2 : i < n
        · rw [if_pos h2, if_pos (by omega)]
        · rw [if_neg h2, if_neg (by omega)]

theorem isInsertOpFor_opFor (v1 v2 : GraphView) (m : List (Nat × Nat)) (j x : Nat) :
    isInsertOpFor j (opFor v1 v2 m x) = false := by
  simp only [opFor]
  cases resolved m x with
  | some t =>
      by_cases h : (initState v1).labels x = v2.nlab t
      · simp [h, isInsertOpFor]
      · simp [h, isInsertOpFor]
  | none => simp [isInsertOpFor]

theorem g1EdgeStep_countP_resolve (v1 v2 : GraphView) (m : List (Nat × Nat))
    (s : GraphState × Nat) (p : Nat × Nat) (i : Nat) :
    ((g1EdgeStep v1 v2 m s p).2.countP (isResolveOpFor i)) = 0 :=
  List.countP_eq_zero.2 (fun op hop => by
    have h := g1EdgeStep_ops v1 v2 m s p op hop
    have h2 := (g1EdgeOp_shape p op h).2.2.1 i
    simp [h2])

theorem g1EdgeStep_countP_insert (v1 v2 : GraphView) (m : List (Nat × Nat))
    (s : GraphState × Nat) (p : Nat × Nat) (j : Nat) :
    ((g1EdgeStep v1 v2 m s p).2.countP (isInsertOpFor j)) = 0 :=
  List.countP_eq_zero.2 (fun op hop => by
    have h := g1EdgeStep_ops v1 v2 m s p op hop
    have h2 := (g1EdgeOp_shape p op h).2.2.2 j
    simp [h2])

theorem g1EdgeStep_countP_nodeOp (v1 v2 : GraphView) (m : List (Nat × Nat))
    (s : GraphState × Nat) (p : Nat × Nat) :
    ((g1EdgeStep v1 v2 m s p).2.countP isNodeOp) = 0 :=
  List.countP_eq_zero.2 (fun op hop => by
    have h := g1EdgeStep_ops v1 v2 m s p op hop
    have h2 := (g1EdgeOp_shape p op h).1
    simp [h2])

theorem g2EdgeStep_countP_resolve (v2 : GraphView) (st : GraphState) (p : Nat × Nat)
    (i : Nat) : ((g2EdgeStep v2 st p).2.countP (isResolveOpFor i)) = 0 :=
  List.countP_eq_zero.2 (fun op hop => by
    have h := g2EdgeStep_ops v2 st p op hop
    subst h
    simp [isResolveOpFor])

theorem g2EdgeStep_countP_insert (v2 : GraphView) (st : GraphState) (p : Nat × Nat)
    (j : Nat) : ((g2EdgeStep v2 st p).2.countP (isInsertOpFor j)) = 0 :=
  List.countP_eq_zero.2 (fun op hop => by
    have h := g2EdgeStep_ops v2 st p op hop
    subst h
    simp [isInsertOpFor])

theorem g2EdgeStep_countP_nodeOp (v2 : GraphView) (st : GraphState) (p : Nat × Nat) :
    ((g2EdgeStep v2 st p).2.countP isNodeOp) = 0 :=
  List.countP_eq_zero.2 (fun op hop => by
    have h := g2EdgeStep_ops v2 st p op hop
    subst h
    simp [isNodeOp])

theorem C1view (v1 v2 : GraphView) (A : List (Nat × Nat)) (nm0 em0 : Nat) :
    (∀ i, i < v1.n →
      ((extractViews v1 v2 A nm0 em0).ops.countP (isResolveOpFor i)) = 1) ∧
    (∀ j, j < v2.n →
      ((extractViews v1 v2 A nm0 em0).ops.countP (isInsertOpFor j))
        = (if insCondB (buildMapping v1.n v2.n A) v1.n
              (act0Of (buildMapping v1.n v2.n A)) j then 1 else 0)) ∧
    ((extractViews v1 v2 A nm0 em0).ops.countP isNodeOp)
      = v1.n + ((List.range v2.n).filter
          (insCondB (buildMapping v1.n v2.n A) v1.n
            (act0Of (buildMapping v1.n v2.n A)))).length := by
  set m := buildMapping v1.n v2.n A with hm
  have hext : extractViews v1 v2 A nm0 em0 = extractWithMapping v1 v2 m nm0 em0 := by
    unfold extractViews
    rw [hm]
  have h1 := nodePhase_final v1 v2 m nm0
  have h1ops : (phase1 v1 v2 m nm0).2 = (List.range v1.n).map (opFor v1 v2 m) := h1.1
  have hNS : NSpec v1 m v1.n (phase1 v1 v2 m nm0).1.1 := h1.2.1
  have hIS0 := NSpec_to_ISpec v1 m _ hNS
  have h2 := insertPhase_final v2 m v1.n (act0Of m) (S1edge v1 m)
    ((initState v1).edgeLabels) _ hIS0
  have h2ops : (phase2 v1 v2 m nm0).2
      = (List.range v2.n).flatMap (insChunk v2 m v1.n (act0Of m)) := h2.1
  refine ⟨?_, ?_, ?_⟩
  · intro i hi
    rw [hext, extract_ops_eq,
      List.countP_append, List.countP_append, List.countP_append, h1ops, h2ops]
    rw [List.countP_map]
    have hcomp : (List.range v1.n).countP ((isResolveOpFor i) ∘ (opFor v1 v2 m))
        = (List.range v1.n).countP (fun x => x == i) := by
      apply List.countP_congr
      intro x _
      rw [Function.comp_apply, isResolveOpFor_opFor]
    rw [hcomp, countP_beq_range, if_pos hi]
    rw [countP_flatMap_zero _ _ (fun j => insChunk_countP_resolve v2 m v1.n (act0Of m) j i)]
    have h3z : ((phase3 v1 v2 m nm0 em0).2.countP (isResolveOpFor i)) = 0 :=
      runOps_countP_zero _ _ (allPairs v1.n)
        (fun s q _ => g1EdgeStep_countP_resolve v1 v2 m s q i) _
    have h4z : ((phase4 v1 v2 m nm0 em0).2.countP (isResolveOpFor i)) = 0 :=
      runOps_countP_zero _ _ (allPairs v2.n)
        (fun s q _ => g2EdgeStep_countP_resolve v2 s q i) _
    rw [h3z, h4z]
  · intro j hj
    rw [hext, extract_ops_eq,
      List.countP_append, List.countP_append, List.countP_append, h1ops, h2ops]
    rw [List.countP_map]
    have hz1 : (List.range v1.n).countP ((isInsertOpFor j) ∘ (opFor v1 v2 m)) = 0 := by
      apply List.countP_eq_zero.2
      intro x _
      show ¬ ((isInsertOpFor j) ∘ (opFor v1 v2 m)) x = true
      rw [Function.comp_apply, isInsertOpFor_opFor]
      simp
    rw [hz1]
    have hcount : (List.range v2.n).count j = 1 :=
      count_eq_one_of_nodup_mem (List.nodup_range v2.n) (List.mem_range.2 hj)
    rw [countP_flatMap_single (insChunk v2 m v1.n (act0Of m)) (isInsertOpFor j) j
      (fun i hne => insChunk_countP_ne v2 m v1.n (act0Of m) i j hne) (List.range v2.n) hcount]
    rw [insChunk_countP_self]
    have h3z : ((phase3 v1 v2 m nm0 em0).2.countP (isInsertOpFor j)) = 0 :=
      runOps_countP_zero _ _ (allPairs v1.n)
        (fun s q _ => g1EdgeStep_countP_insert v1 v2 m s q j) _
    have h4z : ((phase4 v1 v2 m nm0 em0).2.countP (isInsertOpFor j)) = 0 :=
      runOps_countP_zero _ _ (allPairs v2.n)
        (fun s q _ => g2EdgeStep_countP_insert v2 s q j) _
    rw [h3z, h4z]
    omega
  · rw [hext, extract_ops_eq,
      List.countP_append, List.countP_append, List.countP_append, h1ops, h2ops]
    rw [List.countP_map]
    have hfull : (List.range v1.n).countP (isNodeOp ∘ (opFor v1 v2 m))
        = (List.range v1.n).length := by
      apply List.countP_eq_length.2
      intro x _
      exact isNodeOp_opFor v1 v2 m x
    rw [hfull, List.length_range]
    rw [countP_flatMap_boolean (insChunk v2 m v1.n (act0Of m)) isNodeOp
      (insCondB m v1.n (act0Of m))
      (fun j => insChunk_countP_nodeOp v2 m v1.n (act0Of m) j) (List.range v2.n)]
    have h3z : ((phase3 v1 v2 m nm0 em0).2.countP isNodeOp) = 0 :=
      runOps_countP_zero _ _ (allPairs v1.n)
        (fun s q _ => g1EdgeStep_countP_nodeOp v1 v2 m s q) _
    have h4z : ((phase4 v1 v2 m nm0 em0).2.countP isNodeOp) = 0 :=
      runOps_countP_zero _ _ (allPairs v2.n)
        (fun s q _ => g2EdgeStep_countP_nodeOp v2 s q) _
    rw [h3z, h4z]
    omega

/-- C1 amended: every Graph1 node yields exactly one of match, substitute or
delete; an unmatched Graph2 node j yields exactly one insert when j is at or
past the original slot range or Graph1 slot j was deleted, and NO insert when
j indexes a slot that is still active; the total number of node-level
operations is N1 plus the number of unmatched Graph2 nodes satisfying that
condition (not N1 + (N2 - number of valid targets)). -/
theorem C1_amended (g1 g2 : ExGraph) (A : List (Nat × Nat)) (nm0 em0 : Nat) :
    (∀ i, i < g1.num_nodes →
      ((extractEditPath g1 g2 A nm0 em0).ops.countP (isResolveOpFor i)) = 1) ∧
    (∀ j, j < g2.num_nodes →
      ((extractEditPath g1 g2 A nm0 em0).ops.countP (isInsertOpFor j))
        = (if insCondB (buildMapping g1.num_nodes g2.num_nodes A) g1.num_nodes
              (act0Of (buildMapping g1.num_nodes g2.num_nodes A)) j then 1 else 0)) ∧
    ((extractEditPath g1 g2 A nm0 em0).ops.countP isNodeOp)
      = g1.num_nodes + ((List.range g2.num_nodes).filter
          (insCondB (buildMapping g1.num_nodes g2.num_nodes A) g1.num_nodes
            (act0Of (buildMapping g1.num_nodes g2.num_nodes A)))).length :=
  C1view (toView g1) (toView g2) A nm0 em0

theorem C1_amended_witness :
    (((extractEditPath gABiso gABiso [(0, 1)] 0 0).ops.countP (isResolveOpFor 0)) = 1) ∧
    (((extractEditPath gABiso gABiso [(0, 1)] 0 0).ops.countP (isInsertOpFor 0))
      = (if insCondB (buildMapping gABiso.num_nodes gABiso.num_nodes [(0, 1)])
            gABiso.num_nodes
            (act0Of (buildMapping gABiso.num_nodes gABiso.num_nodes [(0, 1)])) 0
         then 1 else 0)) :=
  ⟨(C1_amended gABiso gABiso [(0, 1)] 0 0).1 0 (by decide),
    (C1_amended gABiso gABiso [(0, 1)] 0 0).2.1 0 (by decide)⟩

theorem nodeStep_rank (v2 : GraphView) (m : List (Nat × Nat))
    (s : GraphState × Nat) (i : Nat) :
    ∀ op ∈ (nodeStep v2 m s i).2, opRank op = 0 := by
  intro op hop
  simp only [nodeStep] at hop
  repeat' split at hop
  all_goals simp at hop
  all_goals subst hop
  all_goals simp [opRank]

theorem insertStep_rank (v2 : GraphView) (m : List (Nat × Nat))
    (st : GraphState) (j : Nat) :
    ∀ op ∈ (insertStep v2 m st j).2, opRank op = 0 := by
  intro op hop
  simp only [insertStep] at hop
  repeat' split at hop
  all_goals simp at hop
  all_goals subst hop
  all_goals simp [opRank]

theorem pairwise_rank_const (c : Nat) :
    ∀ l : List EditOp, (∀ x ∈ l, opRank x = c) →
      List.Pairwise (fun a b => opRank a ≤ opRank b) l := by
  intro l
  induction l with
  | nil => intro _; exact List.Pairwise.nil
  | cons a t ih =>
      intro h
      refine List.Pairwise.cons ?_ (ih (fun x hx => h x (List.mem_cons_of_mem _ hx)))
      intro b hb
      rw [h a (List.mem_cons_self _ _), h b (List.mem_cons_of_mem _ hb)]

/-- C8: the output is ordered in fixed phases: all node-level operations
precede all edge-level operations, and all Graph1-edge-driven edge operations
(match_edge, substitute_edge, delete_edge) precede all insert_edge
operations. -/
theorem C8_phase_ordering (g1 g2 : ExGraph) (A : List (Nat × Nat)) (nm0 em0 : Nat) :
    List.Pairwise (fun a b => opRank a ≤ opRank b)
      (extractEditPath g1 g2 A nm0 em0).ops := by
  have hops : (extractEditPath g1 g2 A nm0 em0).ops
      = (phase1 (toView g1) (toView g2) (buildMapping (toView g1).n (toView g2).n A) nm0).2
        ++ (phase2 (toView g1) (toView g2) (buildMapping (toView g1).n (toView g2).n A) nm0).2
        ++ (phase3 (toView g1) (toView g2) (buildMapping (toView g1).n (toView g2).n A) nm0 em0).2
        ++ (phase4 (toView g1) (toView g2) (buildMapping (toView g1).n (toView g2).n A) nm0 em0).2 :=
    extract_ops_eq (toView g1) (toView g2) (buildMapping (toView g1).n (toView g2).n A) nm0 em0
  rw [hops]
  have h1 : ∀ op ∈ (phase1 (toView g1) (toView g2)
      (buildMapping (toView g1).n (toView g2).n A) nm0).2, opRank op = 0 :=
    fun op hop => runOps_all _ _ (fun s i => nodeStep_rank _ _ s i) _ _ op hop
  have h2 : ∀ op ∈ (phase2 (toView g1) (toView g2)
      (buildMapping (toView g1).n (toView g2).n A) nm0).2, opRank op = 0 :=
    fun op hop => runOps_all _ _ (fun s j => insertStep_rank _ _ s j) _ _ op hop
  have h3 : ∀ op ∈ (phase3 (toView g1) (toView g2)
      (buildMapping (toView g1).n (toView g2).n A) nm0 em0).2, opRank op = 1 :=
    fun op hop => runOps_all _ (fun op => opRank op = 1)
      (fun s p op hop => (g1EdgeOp_shape p op (g1EdgeStep_ops _ _ _ s p op hop)).2.1)
      _ _ op hop
  have h4 : ∀ op ∈ (phase4 (toView g1) (toView g2)
      (buildMapping (toView g1).n (toView g2).n A) nm0 em0).2, opRank op = 2 :=
    fun op hop => runOps_all _ (fun op => opRank op = 2)
      (fun s p op hop => by
        have h := g2EdgeStep_ops _ s p op hop
        subst h
        simp [opRank])
      _ _ op hop
  rw [List.pairwise_append]
  refine ⟨?_, pairwise_rank_const 2 _ h4, ?_⟩
  · rw [List.pairwise_append]
    refine ⟨?_, pairwise_rank_const 1 _ h3, ?_⟩
    · rw [List.pairwise_append]
      refine ⟨pairwise_rank_const 0 _ h1, pairwise_rank_const 0 _ h2, ?_⟩
      intro a ha b hb
      rw [h1 a ha, h2 b hb]
    · intro a ha b hb
      rcases List.mem_append.1 ha with h | h
      · rw [h1 a h, h3 b hb]
        omega
      · rw [h2 a h, h3 b hb]
        omega
  · intro a ha b hb
    rcases List.mem_append.1 ha with h | h
    · rcases List.mem_append.1 h with h' | h'
      · rw [h1 a h', h4 b hb]
        omega
      · rw [h2 a h', h4 b hb]
        omega
    · rw [h3 a h, h4 b hb]
      omega

theorem C8_phase_ordering_witness :
    List.Pairwise (fun a b => opRank a ≤ opRank b)
      (extractEditPath gAB gAC [(0, 0), (1, DUMMY)] 0 0).ops :=
  C8_phase_ordering gAB gAC [(0, 0), (1, DUMMY)] 0 0

theorem buildMapping_id_aux (n : Nat) :
    ∀ (c mm : Nat) (acc : List (Nat × Nat)), mm + c ≤ n →
      ∀ j, List.lookup j
        (List.foldl (fun m a => if a.1 < n ∧ a.2 < n then insertAssoc m a.1 a.2 else m) acc
          ((List.range' mm c).map (fun i => (i, i))))
        = if mm ≤ j ∧ j < mm + c then some j else List.lookup j acc := by
  intro c
  induction c with
  | zero =>
      intro mm acc h j
      rw [if_neg (by omega)]
      rfl
  | succ c ih =>
      intro mm acc h j
      have hr : List.range' mm (c + 1) = mm :: List.range' (mm + 1) c := rfl
      rw [hr, List.map_cons, List.foldl_cons]
      rw [if_pos (⟨by omega, by omega⟩ : ((mm, mm).1 < n ∧ (mm, mm).2 < n))]
      rw [ih (mm + 1) (insertAssoc acc mm mm) (by omega) j]
      rw [insertAssoc_lookup mm mm acc j]
      by_cases h1 : mm + 1 ≤ j ∧ j < mm + 1 + c
      · rw [if_pos h1, if_pos (by omega)]
      · rw [if_neg h1]
        by_cases h2 : j = mm
        · subst h2
          rw [if_pos rfl, if_pos (by omega)]
        · rw [if_neg h2, if_neg (by omega)]

theorem buildMapping_id (n j : Nat) :
    List.lookup j (buildMapping n n (idAssignments n)) = if j < n then some j else none := by
  unfold buildMapping idAssignments
  rw [List.range_eq_range']
  rw [buildMapping_id_aux n n 0 [] (by omega) j]
  by_cases h : j < n
  · rw [if_pos ⟨by omega, by omega⟩, if_pos h]
  · rw [if_neg (by omega), if_neg h]
    rfl

theorem resolved_id (n : Nat) (hn : n ≤ DUMMY) (j : Nat) (hj : j < n) :
    resolved (buildMapping n n (idAssignments n)) j = some j := by
  have hDj : ¬ j = DUMMY := by
    intro he
    rw [he] at hj
    omega
  simp only [resolved, buildMapping_id n j, if_pos hj, if_neg hDj]

theorem isTargetB_id (n : Nat) (hn : n ≤ DUMMY) (j : Nat) (hj : j < n) :
    isTargetB (buildMapping n n (idAssignments n)) j = true := by
  have hmem : (j, j) ∈ buildMapping n n (idAssignments n) :=
    lookup_mem _ _ _ (by rw [buildMapping_id n j, if_pos hj])
  have hDj : j ≠ DUMMY := by
    intro he
    rw [he] at hj
    omega
  unfold isTargetB
  rw [List.any_eq_true]
  exact ⟨(j, j), hmem, by simp [hDj]⟩

theorem g1EdgeStep_id (v : GraphView) (m : List (Nat × Nat)) (hn : v.n ≤ DUMMY)
    (hl : ∀ j, List.lookup j m = if j < v.n then some j else none)
    (s : GraphState) (em : Nat) (p : Nat × Nat) (hp : p.1 < p.2 ∧ p.2 < v.n)
    (hj : Jid v s) :
    g1EdgeStep v v m (s, em) p
      = ((s, em + (if v.adj p.1 p.2 then 1 else 0)),
         if v.adj p.1 p.2
         then [EditOp.matchEdge (p.1, p.2) (p.1, p.2) (v.edgeLab p.1 p.2)] else []) := by
  obtain ⟨hN, hAL, hAct, hE, hEL⟩ := hj
  by_cases hadj : v.adj p.1 p.2 = true
  · have hguard : p.1 < s.activeLen ∧ p.2 < s.activeLen ∧
        s.active p.1 = true ∧ s.active p.2 = true := by
      rw [hAL, hAct, hAct]
      exact ⟨by omega, by omega, decide_eq_true (by omega), decide_eq_true (by omega)⟩
    have hm1 : mappedOrDummy m p.1 = p.1 := by
      simp only [mappedOrDummy, hl, if_pos (by omega : p.1 < v.n)]
    have hm2 : mappedOrDummy m p.2 = p.2 := by
      simp only [mappedOrDummy, hl, if_pos (by omega : p.2 < v.n)]
    have hd1 : p.1 ≠ DUMMY := by
      intro he
      have : p.1 < v.n := by omega
      rw [he] at this
      omega
    have hd2 : p.2 ≠ DUMMY := by
      intro he
      have h2n := hp.2
      rw [he] at h2n
      omega
    have hEtrue : s.edgeExists p.1 p.2 = true := by
      rw [hE]
      simp [initState, hp.1, hp.2, hadj]
    have hELval : s.edgeLabels p.1 p.2 = v.edgeLab p.1 p.2 := by
      rw [hEL]
      simp [initState, hp.1, hp.2, hadj]
    simp only [g1EdgeStep, if_pos hadj, if_pos hguard, hm1, hm2]
    rw [if_pos ⟨hd1, hd2, (by omega : p.1 < v.n), (by omega : p.2 < v.n)⟩]
    have hcur : (if p.1 < s.numNodes ∧ p.2 < s.numNodes ∧ s.edgeExists p.1 p.2 = true
        then s.edgeLabels p.1 p.2 else "") = v.edgeLab p.1 p.2 := by
      rw [if_pos ⟨(by omega : p.1 < s.numNodes), (by omega : p.2 < s.numNodes), hEtrue⟩,
        hELval]
    rw [hcur]
    rw [if_neg (by simp)]
  · have hadj' : v.adj p.1 p.2 = false := by
      rcases Bool.eq_false_or_eq_true (v.adj p.1 p.2) with h | h
      · exact absurd h hadj
      · exact h
    simp only [g1EdgeStep, hadj']
    simp [hadj']

theorem g1Phase_id (v : GraphView) (m : List (Nat × Nat)) (hn : v.n ≤ DUMMY)
    (hl : ∀ j, List.lookup j m = if j < v.n then some j else none) :
    ∀ (l : List (Nat × Nat)) (s : GraphState) (em : Nat),
      (∀ p ∈ l, p.1 < p.2 ∧ p.2 < v.n) → Jid v s →
      (runOps (g1EdgeStep v v m) (s, em) l).1.1 = s ∧
      (runOps (g1EdgeStep v v m) (s, em) l).1.2
        = em + (l.filter (fun p => v.adj p.1 p.2)).length ∧
      (runOps (g1EdgeStep v v m) (s, em) l).2
        = (l.filter (fun p => v.adj p.1 p.2)).map
            (fun p => EditOp.matchEdge (p.1, p.2) (p.1, p.2) (v.edgeLab p.1 p.2)) := by
  intro l
  induction l with
  | nil => intro s em _ _; exact ⟨rfl, by simp [runOps], rfl⟩
  | cons p t ih =>
      intro s em hmem hJ
      have hstep := g1EdgeStep_id v m hn hl s em p (hmem p (List.mem_cons_self _ _)) hJ
      rw [runOps_cons, hstep]
      have ih' := ih s (em + (if v.adj p.1 p.2 then 1 else 0))
        (fun q hq => hmem q (List.mem_cons_of_mem _ hq)) hJ
      refine ⟨ih'.1, ?_, ?_⟩
      · rw [ih'.2.1, List.filter_cons]
        by_cases hadj : v.adj p.1 p.2 = true
        · simp only [hadj, if_true, List.length_cons]
          omega
        · have hadj' : v.adj p.1 p.2 = false := by
            rcases Bool.eq_false_or_eq_true (v.adj p.1 p.2) with h | h
            · exact absurd h hadj
            · exact h
          simp only [hadj', Bool.false_eq_true, if_false]
          omega
      · rw [ih'.2.2, List.filter_cons]
        by_cases hadj : v.adj p.1 p.2 = true
        · simp [hadj]
        · have hadj' : v.adj p.1 p.2 = false := by
            rcases Bool.eq_false_or_eq_true (v.adj p.1 p.2) with h | h
            · exact absurd h hadj
            · exact h
          simp [hadj']

theorem g2EdgeStep_id (v : GraphView) (s : GraphState) (p : Nat × Nat)
    (hp : p.1 < p.2 ∧ p.2 < v.n) (hj : Jid v s) :
    g2EdgeStep v s p = (s, []) := by
  obtain ⟨hN, hAL, hAct, hE, hEL⟩ := hj
  by_cases hadj : v.adj p.1 p.2 = true
  · have hguard : p.1 < s.activeLen ∧ p.2 < s.activeLen ∧
        s.active p.1 = true ∧ s.active p.2 = true := by
      rw [hAL, hAct, hAct]
      exact ⟨by omega, by omega, decide_eq_true (by omega), decide_eq_true (by omega)⟩
    have hEtrue : s.edgeExists p.1 p.2 = true := by
      rw [hE]
      simp [initState, hp.1, hp.2, hadj]
    simp only [g2EdgeStep, if_pos hadj, if_pos hguard]
    rw [if_neg (by
      intro hcon
      exact hcon ⟨by omega, by omega, hEtrue⟩)]
  · have hadj' : v.adj p.1 p.2 = false := by
      rcases Bool.eq_false_or_eq_true (v.adj p.1 p.2) with h | h
      · exact absurd h hadj
      · exact h
    simp only [g2EdgeStep, hadj']
    simp

theorem g2Phase_id (v : GraphView) :
    ∀ (l : List (Nat × Nat)) (s : GraphState),
      (∀ p ∈ l, p.1 < p.2 ∧ p.2 < v.n) → Jid v s →
      (runOps (g2EdgeStep v) s l).1 = s ∧ (runOps (g2EdgeStep v) s l).2 = [] := by
  intro l
  induction l with
  | nil => intro s _ _; exact ⟨rfl, rfl⟩
  | cons p t ih =>
      intro s hmem hJ
      have hstep := g2EdgeStep_id v s p (hmem p (List.mem_cons_self _ _)) hJ
      rw [runOps_cons, hstep]
      have ih' := ih s (fun q hq => hmem q (List.mem_cons_of_mem _ hq)) hJ
      exact ⟨ih'.1, by rw [List.nil_append]; exact ih'.2⟩

theorem opFor_id (v : GraphView) (m : List (Nat × Nat))
    (hres : ∀ j, j < v.n → resolved m j = some j) (i : Nat) (hi : i < v.n) :
    opFor v v m i = EditOp.matchNode i i ((initState v).labels i) := by
  simp only [opFor, hres i hi]
  rw [if_neg (by
    have hlabel : (initState v).labels i = v.nlab i := by
      simp [initState, hi]
    rw [hlabel]
    simp)]

theorem isMatchAtB_id (v : GraphView) (m : List (Nat × Nat))
    (hres : ∀ j, j < v.n → resolved m j = some j) (i : Nat) (hi : i < v.n) :
    isMatchAtB v v m i = true := by
  simp only [isMatchAtB, hres i hi]
  have hlabel : (initState v).labels i = v.nlab i := by
    simp [initState, hi]
  rw [hlabel]
  simp

theorem ISpec_id_to_Jid (v : GraphView) (m : List (Nat × Nat))
    (hres : ∀ j, j < v.n → resolved m j = some j)
    (htgt : ∀ j, j < v.n → isTargetB m j = true)
    (s : GraphState)
    (his : ISpec v.n m (act0Of m) (S1edge v m) ((initState v).edgeLabels) v.n s) :
    Jid v s := by
  have hA : ACount v.n m v.n = 0 := by
    unfold ACount
    have hnil : (List.range v.n).filter
        (fun j => !(isTargetB m j) && decide (v.n ≤ j)) = [] := by
      apply List.filter_eq_nil_iff.2
      intro j hj
      rw [htgt j (List.mem_range.1 hj)]
      simp
    rw [hnil]
    rfl
  obtain ⟨hN, hAL, hAlo, hAhi, hE, hEL⟩ := his
  rw [hA] at hN hAhi
  unfold Jid
  refine ⟨by omega, by omega, ?_, ?_, hEL⟩
  · intro j
    by_cases hjn : j < v.n
    · rw [hAlo j hjn]
      rw [if_neg (by
        intro hc
        rw [htgt j hjn] at hc
        exact absurd hc.2 (by simp))]
      simp [act0Of, hres j hjn, hjn]
    · rw [hAhi j (by omega)]
      exact decide_eq_decide.2 (by omega)
  · intro a b
    rw [hE a b]
    rcases Bool.eq_false_or_eq_true ((initState v).edgeExists a b) with htrue | hfalse
    · have hab : a < b ∧ b < v.n := by
        have h := htrue
        simp only [initState, Bool.and_eq_true, decide_eq_true_eq] at h
        exact ⟨h.1.1, h.1.2⟩
      have hia : (resolved m a).isNone = false := by
        rw [hres a (by omega)]
        rfl
      have hib : (resolved m b).isNone = false := by
        rw [hres b (by omega)]
        rfl
      simp [S1edge, htrue, hia, hib]
    · simp [S1edge, hfalse]

/-- C4: if Graph2 equals Graph1 and the correspondence is the identity on its
nodes, the output contains only match and match_edge operations, node_matches
equals N1, and edge_matches equals the number of Graph1 edges. -/
theorem C4_identity_correspondence (g : ExGraph) (hn : g.num_nodes ≤ DUMMY) :
    (∀ op ∈ (extractEditPath g g (idAssignments g.num_nodes) 0 0).ops,
      (∃ i j lbl, op = EditOp.matchNode i j lbl) ∨
      (∃ e1 e2 lbl, op = EditOp.matchEdge e1 e2 lbl)) ∧
    (extractEditPath g g (idAssignments g.num_nodes) 0 0).nodeMatches = g.num_nodes ∧
    (extractEditPath g g (idAssignments g.num_nodes) 0 0).edgeMatches = numEdges g := by
  have hnv : (toView g).n ≤ DUMMY := hn
  set v := toView g with hv
  set m := buildMapping v.n v.n (idAssignments v.n) with hmdef
  have hres : ∀ j, j < v.n → resolved m j = some j := fun j hj => by
    rw [hmdef]
    exact resolved_id v.n hnv j hj
  have htgt : ∀ j, j < v.n → isTargetB m j = true := fun j hj => by
    rw [hmdef]
    exact isTargetB_id v.n hnv j hj
  have hl : ∀ j, List.lookup j m = if j < v.n then some j else none := fun j => by
    rw [hmdef]
    exact buildMapping_id v.n j
  have h1 := nodePhase_final v v m 0
  have hNS := h1.2.1
  have hIS0 := NSpec_to_ISpec v m _ hNS
  have h2 := insertPhase_final v m v.n (act0Of m) (S1edge v m)
    ((initState v).edgeLabels) _ hIS0
  have hJ : Jid v (phase2 v v m 0).1 := ISpec_id_to_Jid v m hres htgt _ h2.2
  have hpairs1 : ∀ p ∈ allPairs v.n, p.1 < p.2 ∧ p.2 < v.n :=
    fun p hp => (mem_allPairs v.n p).1 hp
  have h3 := g1Phase_id v m hnv hl (allPairs v.n) (phase2 v v m 0).1 0 hpairs1 hJ
  have hJ3 : Jid v (phase3 v v m 0 0).1.1 := by
    rw [show (phase3 v v m 0 0).1.1 = (phase2 v v m 0).1 from h3.1]
    exact hJ
  have h4 := g2Phase_id v (allPairs v.n) (phase3 v v m 0 0).1.1 hpairs1 hJ3
  have hops2 : (extractEditPath g g (idAssignments g.num_nodes) 0 0).ops
      = (phase1 v v m 0).2 ++ (phase2 v v m 0).2
        ++ (phase3 v v m 0 0).2 ++ (phase4 v v m 0 0).2 := extract_ops_eq v v m 0 0
  refine ⟨?_, ?_, ?_⟩
  · intro op hop
    rw [hops2] at hop
    rcases List.mem_append.1 hop with hop' | hop4
    · rcases List.mem_append.1 hop' with hop'' | hop3
      · rcases List.mem_append.1 hop'' with hop1 | hop2
        · have hp1 : (phase1 v v m 0).2 = (List.range v.n).map (opFor v v m) := h1.1
          rw [hp1] at hop1
          rcases List.mem_map.1 hop1 with ⟨x, hx, rfl⟩
          rw [opFor_id v m hres x (List.mem_range.1 hx)]
          exact Or.inl ⟨x, x, _, rfl⟩
        · have hp2 : (phase2 v v m 0).2
              = (List.range v.n).flatMap (insChunk v m v.n (act0Of m)) := h2.1
          rw [hp2] at hop2
          rcases List.mem_flatMap.1 hop2 with ⟨j, hj, hmem2⟩
          have hempty : insChunk v m v.n (act0Of m) j = [] := by
            simp [insChunk, insCondB, htgt j (List.mem_range.1 hj)]
          rw [hempty] at hmem2
          simp at hmem2
      · have hp3 : (phase3 v v m 0 0).2
            = ((allPairs v.n).filter (fun p => v.adj p.1 p.2)).map
                (fun p => EditOp.matchEdge (p.1, p.2) (p.1, p.2) (v.edgeLab p.1 p.2)) :=
          h3.2.2
        rw [hp3] at hop3
        rcases List.mem_map.1 hop3 with ⟨q, _, rfl⟩
        exact Or.inr ⟨_, _, _, rfl⟩
    · have hp4 : (phase4 v v m 0 0).2 = [] := h4.2
      rw [hp4] at hop4
      simp at hop4
  · have hn1 : (extractEditPath g g (idAssignments g.num_nodes) 0 0).nodeMatches
        = (phase1 v v m 0).1.2 := extract_nm_eq v v m 0 0
    have hcnt1 : (phase1 v v m 0).1.2
        = 0 + ((List.range v.n).filter (fun i => isMatchAtB v v m i)).length := h1.2.2
    rw [hn1, hcnt1]
    have hfilter : (List.range v.n).filter (fun i => isMatchAtB v v m i)
        = List.range v.n := by
      apply List.filter_eq_self.2
      intro a ha
      exact isMatchAtB_id v m hres a (List.mem_range.1 ha)
    rw [hfilter, List.length_range]
    show 0 + v.n = v.n
    omega
  · have he1 : (extractEditPath g g (idAssignments g.num_nodes) 0 0).edgeMatches
        = (phase3 v v m 0 0).1.2 := extract_em_eq v v m 0 0
    rw [he1]
    have hem : (phase3 v v m 0 0).1.2
        = 0 + ((allPairs v.n).filter (fun p => v.adj p.1 p.2)).length := h3.2.1
    rw [hem]
    show 0 + ((allPairs v.n).filter (fun p => v.adj p.1 p.2)).length
      = ((allPairs v.n).filter (fun p => v.adj p.1 p.2)).length
    omega

theorem C4_identity_correspondence_witness :
    gAB.num_nodes ≤ DUMMY ∧
    (extractEditPath gAB gAB (idAssignments gAB.num_nodes) 0 0).nodeMatches
      = gAB.num_nodes ∧
    (extractEditPath gAB gAB (idAssignments gAB.num_nodes) 0 0).edgeMatches
      = numEdges gAB :=
  ⟨by decide, (C4_identity_correspondence gAB (by decide)).2.1,
    (C4_identity_correspondence gAB (by decide)).2.2⟩

theorem rank_zero_not_g1edge (op : EditOp) (h : opRank op = 0) (p : Nat × Nat) :
    isG1EdgeOpFor p op = false := by
  cases op <;> simp_all [opRank, isG1EdgeOpFor]

theorem g1EdgeOpFor_unique (p q : Nat × Nat) (op : EditOp) (hne : q ≠ p)
    (h : isG1EdgeOpFor q op = true) : isG1EdgeOpFor p op = false := by
  cases op <;> simp_all [isG1EdgeOpFor]

theorem g1EdgeStep_state (v1 v2 : GraphView) (m : List (Nat × Nat))
    (s : GraphState × Nat) (q : Nat × Nat) :
    (g1EdgeStep v1 v2 m s q).1.1.active = s.1.active ∧
    (g1EdgeStep v1 v2 m s q).1.1.activeLen = s.1.activeLen ∧
    (g1EdgeStep v1 v2 m s q).1.1.numNodes = s.1.numNodes ∧
    ∀ a b, ¬ (a = q.1 ∧ b = q.2) →
      (g1EdgeStep v1 v2 m s q).1.1.edgeExists a b = s.1.edgeExists a b := by
  simp only [g1EdgeStep]
  repeat' split
  all_goals refine ⟨rfl, rfl, rfl, ?_⟩
  all_goals intro a b hab
  all_goals first
    | rfl
    | (show (if a = q.1 ∧ b = q.2 then false else s.1.edgeExists a b) = s.1.edgeExists a b
       rw [if_neg hab])

theorem g1EdgeStep_hit (v1 v2 : GraphView) (m : List (Nat × Nat))
    (s : GraphState × Nat) (i k ti tk : Nat)
    (hadj : v1.adj i k = true)
    (hguard : i < s.1.activeLen ∧ k < s.1.activeLen ∧
      s.1.active i = true ∧ s.1.active k = true)
    (hli : List.lookup i m = some ti) (hlk : List.lookup k m = some tk)
    (hdi : ti ≠ DUMMY) (hdk : tk ≠ DUMMY) (hbi : ti < v2.n) (hbk : tk < v2.n)
    (hni : i < s.1.numNodes) (hnk : k < s.1.numNodes)
    (hE : s.1.edgeExists i k = true) :
    ((g1EdgeStep v1 v2 m s (i, k)).2.countP (isG1EdgeOpFor (i, k))) = 1 := by
  have hm1 : mappedOrDummy m i = ti := by simp [mappedOrDummy, hli]
  have hm2 : mappedOrDummy m k = tk := by simp [mappedOrDummy, hlk]
  simp only [g1EdgeStep, if_pos hadj, if_pos hguard, hm1, hm2]
  rw [if_pos ⟨hdi, hdk, hbi, hbk⟩]
  by_cases hadj2 : v2.adj ti tk = true
  · rw [if_pos hadj2]
    repeat' split
    all_goals simp [isG1EdgeOpFor]
  · rw [if_neg hadj2]
    rw [if_pos ⟨hni, hnk, hE⟩]
    simp [isG1EdgeOpFor]

theorem C3view (v1 v2 : GraphView) (A : List (Nat × Nat)) (nm0 em0 : Nat)
    (i k ti tk : Nat) (hik : i < k) (hkn : k < v1.n)
    (hadj : v1.adj i k = true)
    (hri : resolved (buildMapping v1.n v2.n A) i = some ti)
    (hrk : resolved (buildMapping v1.n v2.n A) k = some tk) :
    ((extractViews v1 v2 A nm0 em0).ops.countP (isG1EdgeOpFor (i, k))) = 1 := by
  set m := buildMapping v1.n v2.n A with hmdef
  have hli : List.lookup i m = some ti ∧ ti ≠ DUMMY := (resolved_eq_some m i ti).1 hri
  have hlk : List.lookup k m = some tk ∧ tk ≠ DUMMY := (resolved_eq_some m k tk).1 hrk
  have hbi : ti < v2.n := by
    have := buildMapping_lookup_lt v1.n v2.n A i ti (by rw [← hmdef]; exact hli.1)
    exact this.2
  have hbk : tk < v2.n := by
    have := buildMapping_lookup_lt v1.n v2.n A k tk (by rw [← hmdef]; exact hlk.1)
    exact this.2
  have hext : extractViews v1 v2 A nm0 em0 = extractWithMapping v1 v2 m nm0 em0 := by
    unfold extractViews
    rw [hmdef]
  have h1 := nodePhase_final v1 v2 m nm0
  have hNS := h1.2.1
  have hIS0 := NSpec_to_ISpec v1 m _ hNS
  have h2 := insertPhase_final v2 m v1.n (act0Of m) (S1edge v1 m)
    ((initState v1).edgeLabels) _ hIS0
  have hIS2 : ISpec v1.n m (act0Of m) (S1edge v1 m) ((initState v1).edgeLabels)
      v2.n (phase2 v1 v2 m nm0).1 := h2.2
  obtain ⟨hN2, hAL2, hAlo2, hAhi2, hE2, hEL2⟩ := hIS2
  -- the Graph1-edge-phase invariant at the start
  have hactive : ∀ x tx, x < v1.n → resolved m x = some tx →
      (phase2 v1 v2 m nm0).1.active x = true := by
    intro x tx hx hrx
    rw [hAlo2 x hx]
    split
    · rfl
    · simp [act0Of, hrx]
  have hinv0 : (phase2 v1 v2 m nm0).1.active i = true ∧
      (phase2 v1 v2 m nm0).1.active k = true ∧
      (phase2 v1 v2 m nm0).1.edgeExists i k = true ∧
      i < (phase2 v1 v2 m nm0).1.activeLen ∧ k < (phase2 v1 v2 m nm0).1.activeLen ∧
      i < (phase2 v1 v2 m nm0).1.numNodes ∧ k < (phase2 v1 v2 m nm0).1.numNodes := by
    refine ⟨hactive i ti (by omega) hri, hactive k tk (by omega) hrk, ?_, ?_, ?_, ?_, ?_⟩
    · rw [hE2]
      have hia : (resolved m i).isNone = false := by rw [hri]; rfl
      have hib : (resolved m k).isNone = false := by rw [hrk]; rfl
      simp [S1edge, initState, hik, hkn, hadj, hia, hib]
    · rw [hAL2, hN2]; omega
    · rw [hAL2, hN2]; omega
    · rw [hN2]; omega
    · rw [hN2]; omega
  rw [hext, extract_ops_eq,
    List.countP_append, List.countP_append, List.countP_append]
  have hp1 : (phase1 v1 v2 m nm0).2 = (List.range v1.n).map (opFor v1 v2 m) := h1.1
  have hp2 : (phase2 v1 v2 m nm0).2
      = (List.range v2.n).flatMap (insChunk v2 m v1.n (act0Of m)) := h2.1
  have hz1 : ((phase1 v1 v2 m nm0).2.countP (isG1EdgeOpFor (i, k))) = 0 := by
    rw [hp1]
    apply List.countP_eq_zero.2
    intro op hop
    rcases List.mem_map.1 hop with ⟨x, _, rfl⟩
    rw [rank_zero_not_g1edge _ (opRank_opFor v1 v2 m x) (i, k)]
    simp
  have hz2 : ((phase2 v1 v2 m nm0).2.countP (isG1EdgeOpFor (i, k))) = 0 := by
    rw [hp2]
    apply List.countP_eq_zero.2
    intro op hop
    rcases List.mem_flatMap.1 hop with ⟨j, _, hmemj⟩
    rw [mem_insChunk v2 m v1.n (act0Of m) j op hmemj]
    simp [isG1EdgeOpFor]
  have hz4 : ((phase4 v1 v2 m nm0 em0).2.countP (isG1EdgeOpFor (i, k))) = 0 :=
    runOps_countP_zero _ _ (allPairs v2.n)
      (fun s q _ => List.countP_eq_zero.2 (fun op hop => by
        rw [g2EdgeStep_ops v2 s q op hop]
        simp [isG1EdgeOpFor])) _
  have hone : ((phase3 v1 v2 m nm0 em0).2.countP (isG1EdgeOpFor (i, k))) = 1 := by
    apply runOps_countP_single (g1EdgeStep v1 v2 m) (isG1EdgeOpFor (i, k)) (i, k) 1
      (fun s => s.1.active i = true ∧ s.1.active k = true ∧ s.1.edgeExists i k = true ∧
        i < s.1.activeLen ∧ k < s.1.activeLen ∧ i < s.1.numNodes ∧ k < s.1.numNodes)
      ?_ ?_ ?_ (allPairs v1.n) ((phase2 v1 v2 m nm0).1, em0)
      (count_allPairs v1.n i k hik hkn) hinv0
    · intro s q hq hinv
      obtain ⟨hsa, hsl, hsn, hse⟩ := g1EdgeStep_state v1 v2 m s q
      refine ⟨by rw [hsa]; exact hinv.1, by rw [hsa]; exact hinv.2.1, ?_,
        by rw [hsl]; exact hinv.2.2.2.1, by rw [hsl]; exact hinv.2.2.2.2.1,
        by rw [hsn]; exact hinv.2.2.2.2.2.1, by rw [hsn]; exact hinv.2.2.2.2.2.2⟩
      rw [hse i k (by
        intro hab
        exact hq (by
          obtain ⟨q1, q2⟩ := q
          simp only at hab
          rw [hab.1, hab.2]))]
      exact hinv.2.2.1
    · intro s q hq
      apply List.countP_eq_zero.2
      intro op hop
      rw [g1EdgeOpFor_unique (i, k) q op hq (g1EdgeStep_ops v1 v2 m s q op hop)]
      simp
    · intro s hinv
      exact g1EdgeStep_hit v1 v2 m s i k ti tk hadj
        ⟨hinv.2.2.2.1, hinv.2.2.2.2.1, hinv.1, hinv.2.1⟩ hli.1 hlk.1 hli.2 hlk.2
        hbi hbk hinv.2.2.2.2.2.1 hinv.2.2.2.2.2.2 hinv.2.2.1
  rw [hz1, hz2, hz4, hone]

/-- C3: every Graph1 edge (i,k) whose endpoints both survive (each has a
stored in-bounds correspondence target) gives rise to exactly one edge
operation among match_edge, substitute_edge, delete_edge; in particular no
such edge is both deleted and matched or reported twice. -/
theorem C3_edge_conservation (g1 g2 : ExGraph) (A : List (Nat × Nat)) (nm0 em0 : Nat)
    (i k ti tk : Nat) (hik : i < k) (hkn : k < g1.num_nodes)
    (hadj : adjAt g1 i k = true)
    (hri : resolved (buildMapping g1.num_nodes g2.num_nodes A) i = some ti)
    (hrk : resolved (buildMapping g1.num_nodes g2.num_nodes A) k = some tk) :
    ((extractEditPath g1 g2 A nm0 em0).ops.countP (isG1EdgeOpFor (i, k))) = 1 :=
  C3view (toView g1) (toView g2) A nm0 em0 i k ti tk hik hkn hadj hri hrk

theorem C3_edge_conservation_witness :
    ((extractEditPath gAB gAC [(0, 0), (1, 1)] 0 0).ops.countP (isG1EdgeOpFor (0, 1))) = 1 :=
  C3_edge_conservation gAB gAC [(0, 0), (1, 1)] 0 0 0 1 0 1
    (by decide) (by decide) (by decide) (by decide) (by decide)

theorem rank_zero_no_note (op : EditOp) (h : opRank op = 0) :
    hasEndpointDeletedNote op = false := by
  cases op <;> simp_all [opRank, hasEndpointDeletedNote]

theorem g1EdgeStep_edge_mono (v1 v2 : GraphView) (m : List (Nat × Nat))
    (s : GraphState × Nat) (q : Nat × Nat) :
    ∀ a b, (g1EdgeStep v1 v2 m s q).1.1.edgeExists a b = true →
      s.1.edgeExists a b = true := by
  intro a b h
  simp only [g1EdgeStep] at h
  repeat' split at h
  all_goals simp only [] at h
  all_goals first
    | exact h
    | (by_cases hab : a = q.1 ∧ b = q.2
       · rw [if_pos hab] at h
         exact absurd h (by simp)
       · rw [if_neg hab] at h
         exact h)

theorem g1EdgeStep_no_note (v1 v2 : GraphView) (m : List (Nat × Nat))
    (s : GraphState × Nat) (q : Nat × Nat)
    (hinv : ∀ a b, s.1.edgeExists a b = true →
      (mappedOrDummy m a ≠ DUMMY ∧ mappedOrDummy m b ≠ DUMMY ∧
       mappedOrDummy m a < v2.n ∧ mappedOrDummy m b < v2.n)) :
    ∀ op ∈ (g1EdgeStep v1 v2 m s q).2, hasEndpointDeletedNote op = false := by
  intro op hop
  simp only [g1EdgeStep] at hop
  by_cases h1 : v1.adj q.1 q.2 = true
  · rw [if_pos h1] at hop
    by_cases h2 : q.1 < s.1.activeLen ∧ q.2 < s.1.activeLen ∧
        s.1.active q.1 = true ∧ s.1.active q.2 = true
    · rw [if_pos h2] at hop
      by_cases h3 : mappedOrDummy m q.1 ≠ DUMMY ∧ mappedOrDummy m q.2 ≠ DUMMY ∧
          mappedOrDummy m q.1 < v2.n ∧ mappedOrDummy m q.2 < v2.n
      · rw [if_pos h3] at hop
        repeat' split at hop
        all_goals simp at hop
        all_goals subst hop
        all_goals simp [hasEndpointDeletedNote]
      · rw [if_neg h3] at hop
        by_cases h4 : q.1 < s.1.numNodes ∧ q.2 < s.1.numNodes ∧
            s.1.edgeExists q.1 q.2 = true
        · exact absurd (hinv q.1 q.2 h4.2.2) h3
        · rw [if_neg h4] at hop
          simp at hop
    · rw [if_neg h2] at hop
      simp at hop
  · rw [if_neg h1] at hop
    simp at hop

theorem C10view (v1 v2 : GraphView) (A : List (Nat × Nat)) (nm0 em0 : Nat) :
    ∀ op ∈ (extractViews v1 v2 A nm0 em0).ops, hasEndpointDeletedNote op = false := by
  set m := buildMapping v1.n v2.n A with hmdef
  have hext : extractViews v1 v2 A nm0 em0 = extractWithMapping v1 v2 m nm0 em0 := by
    unfold extractViews
    rw [hmdef]
  have h1 := nodePhase_final v1 v2 m nm0
  have hNS := h1.2.1
  have hIS0 := NSpec_to_ISpec v1 m _ hNS
  have h2 := insertPhase_final v2 m v1.n (act0Of m) (S1edge v1 m)
    ((initState v1).edgeLabels) _ hIS0
  have hIS2 : ISpec v1.n m (act0Of m) (S1edge v1 m) ((initState v1).edgeLabels)
      v2.n (phase2 v1 v2 m nm0).1 := h2.2
  obtain ⟨hN2, hAL2, hAlo2, hAhi2, hE2, hEL2⟩ := hIS2
  have hp1 : (phase1 v1 v2 m nm0).2 = (List.range v1.n).map (opFor v1 v2 m) := h1.1
  have hp2 : (phase2 v1 v2 m nm0).2
      = (List.range v2.n).flatMap (insChunk v2 m v1.n (act0Of m)) := h2.1
  -- every active edge at the start of the Graph1-edge phase has two
  -- validly-mapped endpoints
  have hP0 : ∀ a b, (phase2 v1 v2 m nm0).1.edgeExists a b = true →
      (mappedOrDummy m a ≠ DUMMY ∧ mappedOrDummy m b ≠ DUMMY ∧
       mappedOrDummy m a < v2.n ∧ mappedOrDummy m b < v2.n) := by
    intro a b hab
    rw [hE2 a b] at hab
    have hparts := hab
    simp only [S1edge, Bool.and_eq_true] at hparts
    have hinit := hparts.1
    have hflags := hparts.2
    have habn : a < b ∧ b < v1.n := by
      simp only [initState, Bool.and_eq_true, decide_eq_true_eq] at hinit
      exact ⟨hinit.1.1, hinit.1.2⟩
    have hflag2 : (decide (a < v1.n) && (resolved m a).isNone) = false ∧
        (decide (b < v1.n) && (resolved m b).isNone) = false := by
      rcases Bool.eq_false_or_eq_true
          ((decide (a < v1.n) && (resolved m a).isNone)
            || (decide (b < v1.n) && (resolved m b).isNone)) with hor | hor
      · rw [hor] at hflags
        simp at hflags
      · exact Bool.or_eq_false_iff.1 hor
    have hia : (resolved m a).isNone = false := by
      have h := hflag2.1
      rw [decide_eq_true (by omega : a < v1.n)] at h
      simpa using h
    have hib : (resolved m b).isNone = false := by
      have h := hflag2.2
      rw [decide_eq_true (by omega : b < v1.n)] at h
      simpa using h
    obtain ⟨ta, hta⟩ : ∃ t, resolved m a = some t := by
      cases hr : resolved m a with
      | none => rw [hr] at hia; simp at hia
      | some t => exact ⟨t, rfl⟩
    obtain ⟨tb, htb⟩ : ∃ t, resolved m b = some t := by
      cases hr : resolved m b with
      | none => rw [hr] at hib; simp at hib
      | some t => exact ⟨t, rfl⟩
    have hla := (resolved_eq_some m a ta).1 hta
    have hlb := (resolved_eq_some m b tb).1 htb
    have hma : mappedOrDummy m a = ta := by simp [mappedOrDummy, hla.1]
    have hmb : mappedOrDummy m b = tb := by simp [mappedOrDummy, hlb.1]
    have hban : ta < v2.n :=
      (buildMapping_lookup_lt v1.n v2.n A a ta (by rw [← hmdef]; exact hla.1)).2
    have hbbn : tb < v2.n :=
      (buildMapping_lookup_lt v1.n v2.n A b tb (by rw [← hmdef]; exact hlb.1)).2
    rw [hma, hmb]
    exact ⟨hla.2, hlb.2, hban, hbbn⟩
  intro op hop
  rw [hext, extract_ops_eq] at hop
  rcases List.mem_append.1 hop with hop' | hop4
  · rcases List.mem_append.1 hop' with hop'' | hop3
    · rcases List.mem_append.1 hop'' with hop1 | hop2
      · rw [hp1] at hop1
        rcases List.mem_map.1 hop1 with ⟨x, _, rfl⟩
        exact rank_zero_no_note _ (opRank_opFor v1 v2 m x)
      · rw [hp2] at hop2
        rcases List.mem_flatMap.1 hop2 with ⟨j, _, hmemj⟩
        rw [mem_insChunk v2 m v1.n (act0Of m) j op hmemj]
        rfl
    · exact runOps_all_inv (g1EdgeStep v1 v2 m)
        (fun s => ∀ a b, s.1.edgeExists a b = true →
          (mappedOrDummy m a ≠ DUMMY ∧ mappedOrDummy m b ≠ DUMMY ∧
           mappedOrDummy m a < v2.n ∧ mappedOrDummy m b < v2.n))
        (fun op => hasEndpointDeletedNote op = false)
        (allPairs v1.n)
        (fun s q _ hP a b hnew => hP a b (g1EdgeStep_edge_mono v1 v2 m s q a b hnew))
        (fun s q _ hP => g1EdgeStep_no_note v1 v2 m s q hP)
        ((phase2 v1 v2 m nm0).1, em0) hP0 op hop3
  · have hstep : ∀ (st : GraphState) (q : Nat × Nat),
        ∀ op ∈ (g2EdgeStep v2 st q).2, hasEndpointDeletedNote op = false := by
      intro st q op hopq
      rw [g2EdgeStep_ops v2 st q op hopq]
      rfl
    exact runOps_all (g2EdgeStep v2) (fun op => hasEndpointDeletedNote op = false)
      hstep (allPairs v2.n) _ op hop4

/-- C10: no emitted delete_edge carries the "endpoint deleted" annotation:
whenever a Graph1 edge endpoint resolves to DUMMY it was deleted in the node
phase, whose cascade already deactivated the edge, so the guarded annotated
branch never fires. -/
theorem C10_no_endpoint_deleted_note (g1 g2 : ExGraph) (A : List (Nat × Nat))
    (nm0 em0 : Nat) :
    ∀ op ∈ (extractEditPath g1 g2 A nm0 em0).ops, hasEndpointDeletedNote op = false :=
  C10view (toView g1) (toView g2) A nm0 em0

theorem C10_no_endpoint_deleted_note_witness :
    hasEndpointDeletedNote (EditOp.matchNode 0 0 "label=A;") = false :=
  C10_no_endpoint_deleted_note gAB gAC [(0, 0), (1, DUMMY)] 0 0
    (EditOp.matchNode 0 0 "label=A;") (by decide)

theorem initState_WF (v : GraphView) :
    stateWF (initState v) ∧ edgeInvariant (initState v) := by
  constructor
  · refine ⟨rfl, ?_⟩
    intro a b hab
    simp only [initState, Bool.and_eq_true, decide_eq_true_eq] at hab
    exact ⟨hab.1.1, hab.1.2⟩
  · intro a b hab
    simp only [initState, Bool.and_eq_true, decide_eq_true_eq] at hab
    refine ⟨decide_eq_true (by omega), decide_eq_true (by omega)⟩

theorem nodeStep_WF (v2 : GraphView) (m : List (Nat × Nat)) (s : GraphState × Nat)
    (i : Nat) (h : stateWF s.1 ∧ edgeInvariant s.1) :
    stateWF (nodeStep v2 m s i).1.1 ∧ edgeInvariant (nodeStep v2 m s i).1.1 := by
  by_cases hguard : s.1.activeLen ≤ i ∨ s.1.active i = false
  · simp only [nodeStep, if_pos hguard]
    exact h
  · cases hres : resolved m i with
    | some t =>
        simp only [nodeStep, if_neg hguard, hres]
        split
        · exact ⟨⟨h.1.1, h.1.2⟩, h.2⟩
        · exact h
    | none =>
        simp only [nodeStep, if_neg hguard, hres]
        constructor
        · refine ⟨h.1.1, ?_⟩
          intro a b hab
          have hab' : (if (a = i ∧ a < b ∧ b < s.1.numNodes)
                ∨ (b = i ∧ a < b ∧ a < s.1.numNodes)
              then false else s.1.edgeExists a b) = true := hab
          by_cases hC : (a = i ∧ a < b ∧ b < s.1.numNodes)
              ∨ (b = i ∧ a < b ∧ a < s.1.numNodes)
          · rw [if_pos hC] at hab'
            exact absurd hab' (by simp)
          · rw [if_neg hC] at hab'
            exact h.1.2 a b hab'
        · intro a b hab
          have hab' : (if (a = i ∧ a < b ∧ b < s.1.numNodes)
                ∨ (b = i ∧ a < b ∧ a < s.1.numNodes)
              then false else s.1.edgeExists a b) = true := hab
          by_cases hC : (a = i ∧ a < b ∧ b < s.1.numNodes)
              ∨ (b = i ∧ a < b ∧ a < s.1.numNodes)
          · rw [if_pos hC] at hab'
            exact absurd hab' (by simp)
          · rw [if_neg hC] at hab'
            have hold := h.2 a b hab'
            have hbounds := h.1.2 a b hab'
            have hai : ¬ a = i := fun ha => hC (Or.inl ⟨ha, hbounds.1, hbounds.2⟩)
            have hbi : ¬ b = i := fun hb => hC (Or.inr ⟨hb, hbounds.1, by omega⟩)
            constructor
            · show (if a = i then false else s.1.active a) = true
              rw [if_neg hai]
              exact hold.1
            · show (if b = i then false else s.1.active b) = true
              rw [if_neg hbi]
              exact hold.2

theorem insertStep_WF (v2 : GraphView) (m : List (Nat × Nat)) (st : GraphState)
    (j : Nat) (h : stateWF st ∧ edgeInvariant st) :
    stateWF (insertStep v2 m st j).1 ∧ edgeInvariant (insertStep v2 m st j).1 := by
  by_cases htgt : isTargetB m j = true
  · simp only [insertStep, if_pos htgt]
    exact h
  · by_cases hre : j < st.numNodes ∧ st.active j = false
    · simp only [insertStep, if_neg htgt, if_pos hre]
      refine ⟨⟨h.1.1, h.1.2⟩, ?_⟩
      intro a b hab
      have hold := h.2 a b hab
      constructor
      · show (if a = j then true else st.active a) = true
        by_cases ha : a = j
        · rw [if_pos ha]
        · rw [if_neg ha]
          exact hold.1
      · show (if b = j then true else st.active b) = true
        by_cases hb : b = j
        · rw [if_pos hb]
        · rw [if_neg hb]
          exact hold.2
    · by_cases happ : st.numNodes ≤ j
      · simp only [insertStep, if_neg htgt, if_neg hre, if_pos happ]
        constructor
        · refine ⟨by show st.activeLen + 1 = st.numNodes + 1; rw [h.1.1], ?_⟩
          intro a b hab
          have hb := h.1.2 a b hab
          show a < b ∧ b < st.numNodes + 1
          omega
        · intro a b hab
          have hold := h.2 a b hab
          constructor
          · show (if a = st.activeLen then true else st.active a) = true
            by_cases ha : a = st.activeLen
            · rw [if_pos ha]
            · rw [if_neg ha]
              exact hold.1
          · show (if b = st.activeLen then true else st.active b) = true
            by_cases hb : b = st.activeLen
            · rw [if_pos hb]
            · rw [if_neg hb]
              exact hold.2
      · simp only [insertStep, if_neg htgt, if_neg hre, if_neg happ]
        exact h

theorem g1EdgeStep_WF (v1 v2 : GraphView) (m : List (Nat × Nat))
    (s : GraphState × Nat) (q : Nat × Nat) (h : stateWF s.1 ∧ edgeInvariant s.1) :
    stateWF (g1EdgeStep v1 v2 m s q).1.1 ∧ edgeInvariant (g1EdgeStep v1 v2 m s q).1.1 := by
  obtain ⟨hsa, hsl, hsn, hse⟩ := g1EdgeStep_state v1 v2 m s q
  have hmono := g1EdgeStep_edge_mono v1 v2 m s q
  constructor
  · refine ⟨by rw [hsl, hsn]; exact h.1.1, ?_⟩
    intro a b hab
    have := h.1.2 a b (hmono a b hab)
    rw [hsn]
    exact this
  · intro a b hab
    have hold := h.2 a b (hmono a b hab)
    rw [hsa]
    exact hold

theorem g2EdgeStep_WF (v2 : GraphView) (st : GraphState) (q : Nat × Nat)
    (hq : q.1 < q.2) (h : stateWF st ∧ edgeInvariant st) :
    stateWF (g2EdgeStep v2 st q).1 ∧ edgeInvariant (g2EdgeStep v2 st q).1 := by
  by_cases h1 : v2.adj q.1 q.2 = true
  · by_cases h2 : q.1 < st.activeLen ∧ q.2 < st.activeLen ∧
        st.active q.1 = true ∧ st.active q.2 = true
    · by_cases h3 : ¬ (q.1 < st.numNodes ∧ q.2 < st.numNodes ∧
          st.edgeExists q.1 q.2 = true)
      · simp only [g2EdgeStep, if_pos h1, if_pos h2, if_pos h3]
        constructor
        · refine ⟨h.1.1, ?_⟩
          intro a b hab
          have hab' : (if a = q.1 ∧ b = q.2 then true else st.edgeExists a b) = true := hab
          by_cases hC : a = q.1 ∧ b = q.2
          · show a < b ∧ b < st.numNodes
            have hq2 : q.2 < st.numNodes := by
              rw [← h.1.1]
              exact h2.2.1
            have hc1 := hC.1
            have hc2 := hC.2
            omega
          · rw [if_neg hC] at hab'
            exact h.1.2 a b hab'
        · intro a b hab
          have hab' : (if a = q.1 ∧ b = q.2 then true else st.edgeExists a b) = true := hab
          by_cases hC : a = q.1 ∧ b = q.2
          · constructor
            · show st.active a = true
              rw [hC.1]
              exact h2.2.2.1
            · show st.active b = true
              rw [hC.2]
              exact h2.2.2.2
          · rw [if_neg hC] at hab'
            exact h.2 a b hab'
      · simp only [g2EdgeStep, if_pos h1, if_pos h2, if_neg h3]
        exact h
    · simp only [g2EdgeStep, if_pos h1, if_neg h2]
      exact h
  · simp only [g2EdgeStep, if_neg h1]
    exact h

/-- C5: an edge is active only between two active slots.  The invariant holds
in the initial state, is preserved by every node step, insert step,
Graph1-edge step and Graph2-edge step (together with the structural
well-formedness the code maintains), a delete step atomically deactivates
every edge touching the deleted slot, and in the final state no edge touches
an inactive node. -/
theorem C5_no_dangling_edges (g1 g2 : ExGraph) (A : List (Nat × Nat)) (nm0 em0 : Nat) :
    (stateWF (initState (toView g1)) ∧ edgeInvariant (initState (toView g1))) ∧
    (∀ (v2 : GraphView) (m : List (Nat × Nat)) (s : GraphState × Nat) (i : Nat),
      stateWF s.1 ∧ edgeInvariant s.1 →
      stateWF (nodeStep v2 m s i).1.1 ∧ edgeInvariant (nodeStep v2 m s i).1.1) ∧
    (∀ (v2 : GraphView) (m : List (Nat × Nat)) (st : GraphState) (j : Nat),
      stateWF st ∧ edgeInvariant st →
      stateWF (insertStep v2 m st j).1 ∧ edgeInvariant (insertStep v2 m st j).1) ∧
    (∀ (v1 v2 : GraphView) (m : List (Nat × Nat)) (s : GraphState × Nat) (q : Nat × Nat),
      stateWF s.1 ∧ edgeInvariant s.1 →
      stateWF (g1EdgeStep v1 v2 m s q).1.1 ∧ edgeInvariant (g1EdgeStep v1 v2 m s q).1.1) ∧
    (∀ (v2 : GraphView) (st : GraphState) (q : Nat × Nat), q.1 < q.2 →
      stateWF st ∧ edgeInvariant st →
      stateWF (g2EdgeStep v2 st q).1 ∧ edgeInvariant (g2EdgeStep v2 st q).1) ∧
    (∀ (v2 : GraphView) (m : List (Nat × Nat)) (s : GraphState × Nat) (i : Nat) (b : Nat),
      stateWF s.1 → i < s.1.activeLen → s.1.active i = true → resolved m i = none →
      (nodeStep v2 m s i).1.1.active i = false ∧
      (nodeStep v2 m s i).1.1.edgeExists i b = false ∧
      (nodeStep v2 m s i).1.1.edgeExists b i = false) ∧
    edgeInvariant (extractEditPath g1 g2 A nm0 em0).finalState := by
  refine ⟨initState_WF (toView g1),
    fun v2 m s i h => nodeStep_WF v2 m s i h,
    fun v2 m st j h => insertStep_WF v2 m st j h,
    fun v1 v2 m s q h => g1EdgeStep_WF v1 v2 m s q h,
    fun v2 st q hq h => g2EdgeStep_WF v2 st q hq h,
    ?_, ?_⟩
  · -- a delete step deactivates the slot and every edge touching it
    intro v2 m s i b hwf hlen hacti hres
    have hguard : ¬ (s.1.activeLen ≤ i ∨ s.1.active i = false) := by
      intro h
      rcases h with h | h
      · omega
      · rw [hacti] at h
        simp at h
    have hstep : nodeStep v2 m s i
        = (({ s.1 with
                active := fun j => if j = i then false else s.1.active j,
                edgeExists := fun a b =>
                  if (a = i ∧ a < b ∧ b < s.1.numNodes) ∨ (b = i ∧ a < b ∧ a < s.1.numNodes)
                  then false else s.1.edgeExists a b }, s.2),
           [EditOp.delNode i (s.1.labels i)]) := by
      simp only [nodeStep, if_neg hguard, hres]
    rw [hstep]
    refine ⟨?_, ?_, ?_⟩
    · show (if i = i then false else s.1.active i) = false
      rw [if_pos rfl]
    · show (if (i = i ∧ i < b ∧ b < s.1.numNodes) ∨ (b = i ∧ i < b ∧ i < s.1.numNodes)
          then false else s.1.edgeExists i b) = false
      by_cases hC : (i = i ∧ i < b ∧ b < s.1.numNodes) ∨ (b = i ∧ i < b ∧ i < s.1.numNodes)
      · rw [if_pos hC]
      · rw [if_neg hC]
        rcases Bool.eq_false_or_eq_true (s.1.edgeExists i b) with htr | hfa
        · have hb := hwf.2 i b htr
          exact absurd (Or.inl ⟨rfl, hb.1, hb.2⟩) hC
        · exact hfa
    · show (if (b = i ∧ b < i ∧ i < s.1.numNodes) ∨ (i = i ∧ b < i ∧ b < s.1.numNodes)
          then false else s.1.edgeExists b i) = false
      by_cases hC : (b = i ∧ b < i ∧ i < s.1.numNodes) ∨ (i = i ∧ b < i ∧ b < s.1.numNodes)
      · rw [if_pos hC]
      · rw [if_neg hC]
        rcases Bool.eq_false_or_eq_true (s.1.edgeExists b i) with htr | hfa
        · have hb := hwf.2 b i htr
          exact absurd (Or.inr ⟨rfl, hb.1, by omega⟩) hC
        · exact hfa
  · -- final state
    have hfin : (extractEditPath g1 g2 A nm0 em0).finalState
        = (phase4 (toView g1) (toView g2)
            (buildMapping (toView g1).n (toView g2).n A) nm0 em0).1 :=
      extract_final_eq (toView g1) (toView g2)
        (buildMapping (toView g1).n (toView g2).n A) nm0 em0
    rw [hfin]
    have h0 := initState_WF (toView g1)
    have h1 := runOps_pres (nodeStep (toView g2) (buildMapping (toView g1).n (toView g2).n A))
      (fun s => stateWF s.1 ∧ edgeInvariant s.1) (List.range (toView g1).n)
      (fun s i _ h => nodeStep_WF _ _ s i h) (initState (toView g1), nm0) h0
    have h2 := runOps_pres (insertStep (toView g2) (buildMapping (toView g1).n (toView g2).n A))
      (fun st => stateWF st ∧ edgeInvariant st) (List.range (toView g2).n)
      (fun st j _ h => insertStep_WF _ _ st j h) _ h1
    have h3 := runOps_pres (g1EdgeStep (toView g1) (toView g2)
        (buildMapping (toView g1).n (toView g2).n A))
      (fun s => stateWF s.1 ∧ edgeInvariant s.1) (allPairs (toView g1).n)
      (fun s q _ h => g1EdgeStep_WF _ _ _ s q h)
      ((phase2 (toView g1) (toView g2) (buildMapping (toView g1).n (toView g2).n A) nm0).1, em0)
      h2
    have h4 := runOps_pres (g2EdgeStep (toView g2))
      (fun st => stateWF st ∧ edgeInvariant st) (allPairs (toView g2).n)
      (fun st q hq h => g2EdgeStep_WF _ st q ((mem_allPairs _ q).1 hq).1 h)
      (phase3 (toView g1) (toView g2) (buildMapping (toView g1).n (toView g2).n A) nm0 em0).1.1
      h3
    exact h4.2

theorem C5_no_dangling_edges_witness :
    (stateWF (initState (toView gAB)) ∧ edgeInvariant (initState (toView gAB))) ∧
    edgeInvariant (extractEditPath gAB gAC [(0, 0), (1, DUMMY)] 0 0).finalState :=
  ⟨(C5_no_dangling_edges gAB gAC [(0, 0), (1, DUMMY)] 0 0).1,
    (C5_no_dangling_edges gAB gAC [(0, 0), (1, DUMMY)] 0 0).2.2.2.2.2.2⟩

end EditPathExtractor
